import Mathlib

namespace Bonked

/-!
Verification of the bonked kinematic collision engine core.

The development shallowly embeds the engine's data model and per-tick
pipeline. Machine reals (f32/f64) are embedded as rationals, bit masks
(u32/u64) as natural numbers with bitwise operations, and the external
geometry kernel (parry) as an abstract structure of functions. Shapes are
opaque identifiers. Source files embedded here: object/contact.rs,
object/kinematic_body.rs, object/static_body.rs, object/trigger_area.rs,
world/aabb.rs, world/base.rs.
-/

/-- Vectors of the target dimension, one rational per coordinate. -/
abbrev Vec (n : ℕ) := Fin n → ℚ

/-- Componentwise scaling of a vector by a scalar (the source writes
vector-times-scalar products such as normal * (toi * ratio)). -/
def scale {n : ℕ} (v : Vec n) (c : ℚ) : Vec n := fun i => v i * c

/-- Dot product of two vectors. -/
def dotV {n : ℕ} (v w : Vec n) : ℚ := ∑ i, v i * w i

/-- Embedding of nalgebra_glm is_null: every coordinate is within epsilon
of zero (componentwise absolute comparison). -/
def isNull {n : ℕ} (v : Vec n) (eps : ℚ) : Prop := ∀ i, |v i| ≤ eps

instance {n : ℕ} (v : Vec n) (eps : ℚ) : Decidable (isNull v eps) := by
  unfold isNull; infer_instance

/-- An isometry: a position plus an orientation. The engine never solves
for orientation changes, so the rotation component is kept opaque. -/
structure Iso (n : ℕ) where
  pos : Vec n
  rot : ℕ

/-- parry append_translation_mut: translate the isometry in world space,
leaving the rotation untouched. -/
def Iso.appendTranslation {n : ℕ} (iso : Iso n) (t : Vec n) : Iso n :=
  { pos := iso.pos + t, rot := iso.rot }

/-- parry ShapeCastHit: earliest time of impact plus the outward normals
on both bodies (witness points are unused by the engine and omitted). -/
structure ShapeCastHit (n : ℕ) where
  time_of_impact : ℚ
  normal1 : Vec n
  normal2 : Vec n

/-- ShapeCastHit::swapped, flipping the roles of the two bodies. -/
def ShapeCastHit.swapped {n : ℕ} (h : ShapeCastHit n) : ShapeCastHit n :=
  { time_of_impact := h.time_of_impact, normal1 := h.normal2, normal2 := h.normal1 }

/-- object/contact.rs Contact: a recorded narrowphase result. The field
wfrac embeds the source field weight_ratio. -/
structure Contact (n : ℕ) (P : Type) where
  hit : ShapeCastHit n
  wfrac : ℚ
  payload : P

/-- Shorthand for a contact's time of impact. -/
def Contact.toi {n : ℕ} {P : Type} (c : Contact n P) : ℚ := c.hit.time_of_impact

/-- Contact::order, the comparator handed to sort_by in apply_contacts:
times of impact closer than epsilon compare Equal, otherwise the smaller
time is Less. -/
def Contact.order {n : ℕ} {P : Type} (a b : Contact n P) (eps : ℚ) : Ordering :=
  if |a.hit.time_of_impact - b.hit.time_of_impact| < eps then Ordering.eq
  else if a.hit.time_of_impact < b.hit.time_of_impact then Ordering.lt
  else Ordering.gt

/-- The non-strict relation induced by Contact::order: a may come before b
exactly when the comparator does not answer Greater. -/
def contactLE {n : ℕ} {P : Type} (eps : ℚ) (a b : Contact n P) : Prop :=
  Contact.order a b eps ≠ Ordering.gt

instance {n : ℕ} {P : Type} (eps : ℚ) (a b : Contact n P) :
    Decidable (contactLE eps a b) := by
  unfold contactLE; infer_instance

/-- Embedding of Vec sort_by with the Contact::order comparator, as the
stable insertion sort; for every comparator that is consistent on the
list this is the unique stable sort and so coincides with sort_by. -/
def sortContacts {n : ℕ} {P : Type} (eps : ℚ) (l : List (Contact n P)) :
    List (Contact n P) :=
  l.insertionSort (contactLE eps)

/-- object/kinematic_body.rs KinematicBody: a movable body with its
collision layer and mask, weight, bounce flag, velocity, the tentative
isometry for the next tick and the per-tick contact list. -/
structure KinematicBody (n : ℕ) (B : Type) where
  shape : ℕ
  isometry : Iso n
  payload : B
  layer : ℕ
  mask : ℕ
  weight : ℚ
  bounce : Bool
  velocity : Vec n
  next_isometry : Iso n
  contacts : List (Contact n B)

/-- KinematicBody::pre_update: commit the isometry, advance the tentative
next isometry by velocity times delta_time, and clear the contact list. -/
def KinematicBody.pre_update {n : ℕ} {B : Type} (dt : ℚ) (k : KinematicBody n B) :
    KinematicBody n B :=
  let iso := k.next_isometry
  { k with
    isometry := iso,
    next_isometry := iso.appendTranslation (scale k.velocity dt),
    contacts := [] }

/-- KinematicBody::add_contact: derive the weight ratio from the optional
weight of the other body (None means the other body is static) and append
the contact to the list. -/
def KinematicBody.add_contact {n : ℕ} {B : Type} (hit : ShapeCastHit n)
    (other_weight : Option ℚ) (p : B) (k : KinematicBody n B) : KinematicBody n B :=
  let wf : ℚ :=
    match other_weight with
    | some w => 1 - k.weight / (k.weight + w)
    | none => 1
  { k with contacts := k.contacts ++ [{ hit := hit, wfrac := wf, payload := p }] }

/-- The loop body of KinematicBody::apply_contacts: the state is the pair
of the accumulated push-back offset and the current velocity. The offset
loses normal times time_of_impact times weight_ratio; then, with d the
dot product of the contact normal and the velocity, the velocity loses
the push-back normal times d times weight_ratio when d is positive, gains
it when the body bounces, and is untouched otherwise. -/
def resolveStep {n : ℕ} {B : Type} (bounce : Bool) (s : Vec n × Vec n)
    (c : Contact n B) : Vec n × Vec n :=
  let normal := c.hit.normal1
  let offset := s.1 - scale normal (c.hit.time_of_impact * c.wfrac)
  let d := dotV normal s.2
  let push := scale normal (d * c.wfrac)
  (offset, if 0 < d then s.2 - push else if bounce then s.2 + push else s.2)

/-- KinematicBody::apply_contacts: sort the contacts with Contact::order,
fold them accumulating a push-back offset and correcting the velocity,
then translate the next isometry by the offset scaled by delta_time when
the offset is not null with respect to epsilon. The sorted list stays in
place: the source sorts the contacts vector in place and never clears it
here. -/
def KinematicBody.apply_contacts {n : ℕ} {B : Type} (dt eps : ℚ)
    (k : KinematicBody n B) : KinematicBody n B :=
  let sorted := sortContacts eps k.contacts
  let res := sorted.foldl (resolveStep k.bounce) (0, k.velocity)
  { k with
    contacts := sorted,
    velocity := res.2,
    next_isometry :=
      if ¬ isNull res.1 eps then k.next_isometry.appendTranslation (scale res.1 dt)
      else k.next_isometry }

/-- The resolution loop exactly as the specification words it (claim C1):
starting from offset zero, each contact subtracts normal times
time_of_impact times ratio from the offset; with d the dot product of the
normal and the current velocity, the velocity loses normal times d times
ratio when d is positive, gains it when d is non-positive and the body
bounces, and is untouched otherwise. -/
def specResolve {n : ℕ} {B : Type} (bounce : Bool) :
    List (Contact n B) → Vec n → Vec n → Vec n × Vec n
  | [], offset, vel => (offset, vel)
  | c :: rest, offset, vel =>
    let nrm := c.hit.normal1
    let r := c.wfrac
    let t := c.hit.time_of_impact
    let offset' := offset - scale nrm (t * r)
    let d := dotV nrm vel
    let vel' :=
      if 0 < d then vel - scale nrm (d * r)
      else if d ≤ 0 ∧ bounce then vel + scale nrm (d * r)
      else vel
    specResolve bounce rest offset' vel'

/-! ### Properties of the contact comparator -/

/-! ### Sorting with a comparator that is consistent on the list -/

/-! ### Concrete values used by counterexamples and witnesses -/

/-- The zero vector in dimension two. -/
def v0 : Vec 2 := fun _ => 0

/-- A contact with time of impact 0. -/
def cA : Contact 2 Unit := { hit := { time_of_impact := 0, normal1 := v0, normal2 := v0 }, wfrac := 1, payload := () }

/-- A contact with time of impact one half. -/
def cB : Contact 2 Unit := { hit := { time_of_impact := 1 / 2, normal1 := v0, normal2 := v0 }, wfrac := 1, payload := () }

/-- A contact with time of impact 1. -/
def cC : Contact 2 Unit := { hit := { time_of_impact := 1, normal1 := v0, normal2 := v0 }, wfrac := 1, payload := () }

/-- A contact with time of impact nine fifths. -/
def cT0 : Contact 2 Unit := { hit := { time_of_impact := 9 / 5, normal1 := v0, normal2 := v0 }, wfrac := 1, payload := () }

/-- A contact with time of impact nine tenths. -/
def cT1 : Contact 2 Unit := { hit := { time_of_impact := 9 / 10, normal1 := v0, normal2 := v0 }, wfrac := 1, payload := () }

/-- A contact with time of impact 0. -/
def cT2 : Contact 2 Unit := { hit := { time_of_impact := 0, normal1 := v0, normal2 := v0 }, wfrac := 1, payload := () }

/-- A kinematic body with a single recorded contact, for the C4
counterexample. -/
def kC4 : KinematicBody 2 Unit :=
  { shape := 0, isometry := { pos := v0, rot := 0 }, payload := (),
    layer := 1, mask := 1, weight := 1, bounce := false, velocity := v0,
    next_isometry := { pos := v0, rot := 0 }, contacts := [cA] }

/-- A kinematic body of weight 1 used by the C2 witness. -/
def kC2 : KinematicBody 2 Unit :=
  { shape := 0, isometry := { pos := v0, rot := 0 }, payload := (),
    layer := 1, mask := 1, weight := 1, bounce := false, velocity := v0,
    next_isometry := { pos := v0, rot := 0 }, contacts := [] }

/-- A shape cast hit used by the C2 witness. -/
def hitW : ShapeCastHit 2 := { time_of_impact := 0, normal1 := v0, normal2 := v0 }

/-! ### Bounding volumes (world/aabb.rs) -/

/-- parry Aabb: componentwise bounds. -/
structure PAabb (n : ℕ) where
  mins : Vec n
  maxs : Vec n

/-- parry Aabb::intersects: boxes intersect when on every axis each box's
minimum does not exceed the other's maximum. -/
def PAabb.intersects {n : ℕ} (a b : PAabb n) : Prop :=
  ∀ i, a.mins i ≤ b.maxs i ∧ b.mins i ≤ a.maxs i

instance {n : ℕ} (a b : PAabb n) : Decidable (a.intersects b) := by
  unfold PAabb.intersects; infer_instance

/-- parry Aabb::contains_local_point restricted to what claim C10 needs:
the point is within the bounds on every axis. -/
def PAabb.containsPt {n : ℕ} (a : PAabb n) (p : Vec n) : Prop :=
  ∀ i, a.mins i ≤ p i ∧ p i ≤ a.maxs i

/-- Mask::MAX for the u64 mask build. -/
def maskAll : ℕ := 2 ^ 64 - 1

/-- world/aabb.rs Aabb: a parry box plus the layer and mask bitfields. -/
structure Aabb (n : ℕ) where
  box : PAabb n
  layer : ℕ
  mask : ℕ

/-- bvh_arena BoundingVolume::overlaps for the masked Aabb: the boxes may
interact (each layer meets the other's mask) and the boxes intersect. -/
def Aabb.overlaps {n : ℕ} (a b : Aabb n) : Prop :=
  (a.layer &&& b.mask ≠ 0 ∧ a.mask &&& b.layer ≠ 0) ∧ a.box.intersects b.box

instance {n : ℕ} (a b : Aabb n) : Decidable (a.overlaps b) := by
  unfold Aabb.overlaps; infer_instance

/-- Aabb::from_ray: the box spanned by the componentwise inf and sup of
the ray origin and the direction scaled by the maximal time of impact
(exactly as the source computes it: the direction term is not added to
the origin). -/
def Aabb.from_ray {n : ℕ} (origin dir : Vec n) (max_toi : ℚ)
    (layer mask : ℕ) : Aabb n :=
  { box := { mins := fun i => min (origin i) (dir i * max_toi),
             maxs := fun i => max (origin i) (dir i * max_toi) },
    layer := layer, mask := mask }

/-- The origin of the ray exhibiting the from_ray defect. -/
def rayO : Vec 2 := fun _ => 10

/-- The direction of the ray exhibiting the from_ray defect. -/
def rayD : Vec 2 := fun _ => 1

/-! ### Object variants and the world (object/static_body.rs,
object/trigger_area.rs, world/base.rs) -/

/-- The external geometry kernel (parry), abstracted: shapes are opaque
identifiers, and the kernel is an arbitrary structure of pure functions
(compute_aabb, compute_swept_aabb, cast_shapes with a maximal time of
impact, intersection_test). -/
structure Kernel (n : ℕ) where
  computeAabb : ℕ → Iso n → PAabb n
  computeSweptAabb : ℕ → Iso n → Iso n → PAabb n
  castShapes : Iso n → Vec n → ℕ → Iso n → Vec n → ℕ → ℚ → Option (ShapeCastHit n)
  intersectionTest : Iso n → ℕ → Iso n → ℕ → Bool

/-- KinematicBody::aabb: swept box between the current and the next
isometry, tagged with the body's layer and mask. -/
def kinAabb {n : ℕ} {B : Type} (K : Kernel n) (k : KinematicBody n B) : Aabb n :=
  { box := K.computeSweptAabb k.shape k.isometry k.next_isometry,
    layer := k.layer, mask := k.mask }

/-- object/static_body.rs StaticBody. -/
structure StaticBody (n : ℕ) (B : Type) where
  shape : ℕ
  isometry : Iso n
  payload : B
  layer : ℕ

/-- StaticBody::aabb: shape box at the isometry, layer of the body, mask
all ones (a static body never initiates tests). -/
def staticAabb {n : ℕ} {B : Type} (K : Kernel n) (s : StaticBody n B) : Aabb n :=
  { box := K.computeAabb s.shape s.isometry, layer := s.layer, mask := maskAll }

/-- The portion of a kinematic body that a trigger callback can mutate
through its mutable reference (the public velocity field, the payload,
and the contact list and next isometry through public methods);
re-entrant calls into the engine from a callback are undefined behaviour
per the specification and are excluded from the model. -/
structure KMut (n : ℕ) (B : Type) where
  velocity : Vec n
  next_isometry : Iso n
  contacts : List (Contact n B)
  payload : B

/-- The mutable view of a kinematic body handed to a trigger callback. -/
def KinematicBody.kmut {n : ℕ} {B : Type} (k : KinematicBody n B) : KMut n B :=
  { velocity := k.velocity, next_isometry := k.next_isometry,
    contacts := k.contacts, payload := k.payload }

/-- Write a callback's mutations back into the kinematic body. -/
def KinematicBody.applyKMut {n : ℕ} {B : Type} (k : KinematicBody n B)
    (m : KMut n B) : KinematicBody n B :=
  { k with velocity := m.velocity, next_isometry := m.next_isometry,
           contacts := m.contacts, payload := m.payload }

/-- object/trigger_area.rs TriggerArea: shape, isometry, payload, the
mask of layers it detects, and the on_overlap callback (modelled on the
trigger's payload and the kinematic body's mutable view). -/
structure TriggerArea (n : ℕ) (T B : Type) where
  shape : ℕ
  isometry : Iso n
  payload : T
  mask : ℕ
  on_overlap : T → KMut n B → T × KMut n B

/-- TriggerArea::aabb: shape box at the isometry, layer all ones, and
the trigger's mask. -/
def trigAabb {n : ℕ} {T B : Type} (K : Kernel n) (t : TriggerArea n T B) : Aabb n :=
  { box := K.computeAabb t.shape t.isometry, layer := maskAll, mask := t.mask }

/-- The world: the three populations in list order plus the epsilon
chosen at construction. The sets' BVH partitions are modelled by
filtering the lists with Aabb::overlaps; statics and triggers are
immutable while resident so their stored boxes equal their current
ones, and the kinematic partition is rebuilt (repartition) before the
pair phase. -/
structure World (n : ℕ) (B T : Type) where
  kinematics : List (KinematicBody n B)
  statics : List (StaticBody n B)
  triggers : List (TriggerArea n T B)
  epsilon : ℚ

/-- Ghost instrumentation of World::update: which add_contact calls and
trigger callbacks happen, identified by list indices. -/
inductive Event where
  | contactWithStatic (i si : ℕ)
  | contactWithKinematic (i j : ℕ)
  | triggerFired (i ti : ℕ)
deriving DecidableEq

/-- The loop body of the static-contact scan of one kinematic body. -/
def ksStep {n : ℕ} {B : Type} (K : Kernel n) (dt : ℚ) (a : Aabb n) (i : ℕ)
    (s : KinematicBody n B × List Event) (p : ℕ × StaticBody n B) :
    KinematicBody n B × List Event :=
  if a.overlaps (staticAabb K p.2) then
    match K.castShapes s.1.isometry s.1.velocity s.1.shape
        p.2.isometry 0 p.2.shape dt with
    | some hit =>
      (KinematicBody.add_contact hit none p.2.payload s.1,
       s.2 ++ [Event.contactWithStatic i p.1])
    | none => s
  else s

/-- One kinematic body's share of the first loop of World::update:
pre_update, then for every overlapping static body a shape cast from
the body's committed isometry with its velocity against the motionless
static, recording a contact on a hit. -/
def ksBody {n : ℕ} {B : Type} (K : Kernel n) (dt : ℚ)
    (statics : List (StaticBody n B)) (i : ℕ) (k : KinematicBody n B) :
    KinematicBody n B × List Event :=
  let k1 := KinematicBody.pre_update dt k
  let a := kinAabb K k1
  statics.enum.foldl (ksStep K dt a i) (k1, [])

/-- The first loop of World::update over all kinematic bodies in list
order. -/
def ksPhase {n : ℕ} {B T : Type} (K : Kernel n) (dt : ℚ) (w : World n B T) :
    World n B T × List Event :=
  let rs := w.kinematics.enum.map (fun p => ksBody K dt w.statics p.1 p.2)
  ({ w with kinematics := rs.map Prod.fst }, (rs.map Prod.snd).flatten)

/-- The unordered distinct index pairs enumerated from the kinematic
partition (the BVH reports each overlapping pair once, in an unspecified
order; the model fixes the ascending order). -/
def kkPairs (m : ℕ) : List (ℕ × ℕ) :=
  (List.range m).bind
    (fun i => ((List.range m).filter (fun j => i < j)).map (fun j => (i, j)))

/-- One candidate pair of the kinematic-versus-kinematic loop of
World::update: when the swept boxes overlap and the shape cast hits,
both bodies record the contact, the second with the swapped hit and
each with the other's weight and payload. -/
def kkStep {n : ℕ} {B : Type} (K : Kernel n) (dt : ℚ)
    (s : List (KinematicBody n B) × List Event) (p : ℕ × ℕ) :
    List (KinematicBody n B) × List Event :=
  match s.1[p.1]?, s.1[p.2]? with
  | some k1, some k2 =>
    if (kinAabb K k1).overlaps (kinAabb K k2) then
      match K.castShapes k1.isometry k1.velocity k1.shape
          k2.isometry k2.velocity k2.shape dt with
      | some hit =>
        ((s.1.set p.1 (KinematicBody.add_contact hit (some k2.weight) k2.payload k1)).set
            p.2 (KinematicBody.add_contact hit.swapped (some k1.weight) k1.payload k2),
         s.2 ++ [Event.contactWithKinematic p.1 p.2, Event.contactWithKinematic p.2 p.1])
      | none => s
    else s
  | _, _ => s

/-- The kinematic-versus-kinematic loop of World::update (after
repartition). -/
def kkPhase {n : ℕ} {B T : Type} (K : Kernel n) (dt : ℚ) (w : World n B T) :
    World n B T × List Event :=
  let r := (kkPairs w.kinematics.length).foldl (kkStep K dt) (w.kinematics, [])
  ({ w with kinematics := r.1 }, r.2)

/-- The resolution loop of World::update: apply_contacts on every
kinematic body with the world's epsilon. -/
def resolvePhase {n : ℕ} {B T : Type} (dt : ℚ) (w : World n B T) : World n B T :=
  { w with kinematics :=
      w.kinematics.map (KinematicBody.apply_contacts dt w.epsilon) }

/-- One trigger candidate of the trigger loop: the kinematic body's box
was computed before its trigger scan; when it overlaps the trigger's box
and intersection_test holds, the callback runs on the trigger payload
and the body's mutable view. -/
def trigInner {n : ℕ} {B T : Type} (K : Kernel n) (ki : ℕ) (a : Aabb n)
    (s : KinematicBody n B × List (TriggerArea n T B) × List Event) (ti : ℕ) :
    KinematicBody n B × List (TriggerArea n T B) × List Event :=
  match s.2.1[ti]? with
  | some t =>
    if a.overlaps (trigAabb K t) then
      if K.intersectionTest s.1.isometry s.1.shape t.isometry t.shape then
        let r := t.on_overlap t.payload s.1.kmut
        (s.1.applyKMut r.2, s.2.1.set ti { t with payload := r.1 },
         s.2.2 ++ [Event.triggerFired ki ti])
      else s
    else s
  | none => s

/-- One kinematic body's trigger scan: compute the box once, then visit
every trigger in order. -/
def trigOuter {n : ℕ} {B T : Type} (K : Kernel n)
    (s : List (KinematicBody n B) × List (TriggerArea n T B) × List Event)
    (ki : ℕ) :
    List (KinematicBody n B) × List (TriggerArea n T B) × List Event :=
  match s.1[ki]? with
  | some k =>
    let a := kinAabb K k
    let r := (List.range s.2.1.length).foldl (trigInner K ki a) (k, s.2.1, s.2.2)
    (s.1.set ki r.1, r.2.1, r.2.2)
  | none => s

/-- The trigger loop of World::update. -/
def trigPhase {n : ℕ} {B T : Type} (K : Kernel n) (w : World n B T) :
    World n B T × List Event :=
  let r := (List.range w.kinematics.length).foldl (trigOuter K)
    (w.kinematics, w.triggers, [])
  ({ w with kinematics := r.1, triggers := r.2.1 }, r.2.2)

/-- World::update: the four phases in order (the repartition between the
static and the pair phase has no observable state in the model). -/
def update {n : ℕ} {B T : Type} (K : Kernel n) (w : World n B T) (dt : ℚ) :
    World n B T × List Event :=
  let r1 := ksPhase K dt w
  let r2 := kkPhase K dt r1.1
  let w3 := resolvePhase dt r2.1
  let r4 := trigPhase K w3
  (r4.1, r1.2 ++ r2.2 ++ r4.2)

/-- A sequence of ticks: repeated World::update, accumulating events. -/
def runTicks {n : ℕ} {B T : Type} (K : Kernel n) (w : World n B T)
    (ticks : List ℚ) : World n B T × List Event :=
  ticks.foldl
    (fun s dt =>
      let r := update K s.1 dt
      (r.1, s.2 ++ r.2))
    (w, [])

/-! ### Invariance infrastructure for the update pipeline -/

/-- A kinematic body with its contact list dropped: the part of a body
that add_contact never changes. -/
def KinematicBody.strip {n : ℕ} {B : Type} (k : KinematicBody n B) :
    KinematicBody n B := { k with contacts := [] }

/-- The layer and mask of a kinematic body: inviolable over the whole
pipeline. -/
def masksOf {n : ℕ} {B : Type} (k : KinematicBody n B) : ℕ × ℕ :=
  (k.layer, k.mask)

/-- The trigger data that update may never change: shape, isometry and
mask (only the payload is writable, through the callback). -/
def trigProj {n : ℕ} {T B : Type} (t : TriggerArea n T B) : ℕ × Iso n × ℕ :=
  (t.shape, t.isometry, t.mask)

/-! #### The static-contact fold of one kinematic body -/


/-- A trivial geometry kernel: point boxes, no shape-cast hits, no
intersections. -/
def K0 : Kernel 2 :=
  { computeAabb := fun _ _ => { mins := v0, maxs := v0 },
    computeSweptAabb := fun _ _ _ => { mins := v0, maxs := v0 },
    castShapes := fun _ _ _ _ _ _ _ => none,
    intersectionTest := fun _ _ _ _ => false }

/-- The isometry at the origin. -/
def isoA : Iso 2 := { pos := v0, rot := 0 }

/-- The all-ones vector in dimension two. -/
def vOne : Vec 2 := fun _ => 1

/-- The isometry at position one on both axes. -/
def isoB : Iso 2 := { pos := vOne, rot := 0 }

/-- A kinematic body at rest whose next isometry differs from its current
isometry (the state left behind by an earlier tick with a velocity that
was zeroed afterwards). -/
def kC3 : KinematicBody 2 Unit :=
  { shape := 0, isometry := isoA, payload := (), layer := 1, mask := 1,
    weight := 1, bounce := false, velocity := v0, next_isometry := isoB,
    contacts := [] }

/-- A world holding only the body kC3. -/
def wC3 : World 2 Unit Unit :=
  { kinematics := [kC3], statics := [], triggers := [], epsilon := 1 }

/-- The condition under which the trigger scan of a kinematic body fires
the callback of the trigger at index t0: the precomputed box a overlaps
the trigger's box and intersection_test holds between the body's shape at
its isometry and the trigger's. -/
def innerFire {n : ℕ} {B T : Type} (K : Kernel n) (a : Aabb n) (t0 : ℕ)
    (s : KinematicBody n B × List (TriggerArea n T B) × List Event) : Prop :=
  ∃ t, s.2.1[t0]? = some t ∧ a.overlaps (trigAabb K t) ∧
    K.intersectionTest s.1.isometry s.1.shape t.isometry t.shape = true

instance {n : ℕ} {B T : Type} (K : Kernel n) (a : Aabb n) (t0 : ℕ)
    (s : KinematicBody n B × List (TriggerArea n T B) × List Event) :
    Decidable (innerFire K a t0 s) :=
  match h : s.2.1[t0]? with
  | none => isFalse (fun ⟨_, ht, _⟩ => by rw [h] at ht; exact Option.noConfusion ht)
  | some t =>
    if hc : a.overlaps (trigAabb K t) ∧
        K.intersectionTest s.1.isometry s.1.shape t.isometry t.shape = true then
      isTrue ⟨t, h, hc.1, hc.2⟩
    else
      isFalse (fun ⟨t', ht', h1, h2⟩ => by
        rw [h] at ht'
        cases ht'
        exact hc ⟨h1, h2⟩)

/-- The condition under which the trigger phase fires the callback of the
trigger at index t0 on the kinematic body at index i0. -/
def outerFire {n : ℕ} {B T : Type} (K : Kernel n) (i0 t0 : ℕ)
    (s : List (KinematicBody n B) × List (TriggerArea n T B) × List Event) : Prop :=
  ∃ k t, s.1[i0]? = some k ∧ s.2.1[t0]? = some t ∧
    (kinAabb K k).overlaps (trigAabb K t) ∧
    K.intersectionTest k.isometry k.shape t.isometry t.shape = true

instance {n : ℕ} {B T : Type} (K : Kernel n) (i0 t0 : ℕ)
    (s : List (KinematicBody n B) × List (TriggerArea n T B) × List Event) :
    Decidable (outerFire K i0 t0 s) :=
  match hk : s.1[i0]? with
  | none => isFalse (fun ⟨_, _, hki, _⟩ => by rw [hk] at hki; exact Option.noConfusion hki)
  | some k =>
    match ht : s.2.1[t0]? with
    | none => isFalse (fun ⟨_, _, _, hti, _⟩ => by rw [ht] at hti; exact Option.noConfusion hti)
    | some t =>
      if hc : (kinAabb K k).overlaps (trigAabb K t) ∧
          K.intersectionTest k.isometry k.shape t.isometry t.shape = true then
        isTrue ⟨k, t, hk, ht, hc.1, hc.2⟩
      else
        isFalse (fun ⟨k', t', hk', ht', h1, h2⟩ => by
          rw [hk] at hk'
          rw [ht] at ht'
          cases hk'
          cases ht'
          exact hc ⟨h1, h2⟩)

/-- A settled kinematic body: zero velocity and next isometry equal to
the isometry. -/
def kC8 : KinematicBody 2 Unit :=
  { shape := 0, isometry := isoA, payload := (), layer := 1, mask := 1,
    weight := 1, bounce := false, velocity := v0, next_isometry := isoA,
    contacts := [] }

/-- A world holding only the settled body kC8. -/
def wC8 : World 2 Unit Unit :=
  { kinematics := [kC8], statics := [], triggers := [], epsilon := 1 }

/-- A trigger callback that changes nothing. -/
def trigCb : Unit → KMut 2 Unit → Unit × KMut 2 Unit := fun p k => (p, k)

/-- A trigger area listening on layer one. -/
def tC7 : TriggerArea 2 Unit Unit :=
  { shape := 0, isometry := isoA, payload := (), mask := 1, on_overlap := trigCb }

/-- The trivial kernel with an always-true intersection test. -/
def K1 : Kernel 2 :=
  { computeAabb := fun _ _ => { mins := v0, maxs := v0 },
    computeSweptAabb := fun _ _ _ => { mins := v0, maxs := v0 },
    castShapes := fun _ _ _ _ _ _ _ => none,
    intersectionTest := fun _ _ _ _ => true }

/-- A world with one kinematic body over one trigger area. -/
def wC7 : World 2 Unit Unit :=
  { kinematics := [kC8], statics := [], triggers := [tC7], epsilon := 1 }

/-- The world wC7 after the first three phases of update. -/
def w3C7 : World 2 Unit Unit :=
  resolvePhase 1 (kkPhase K1 1 (ksPhase K1 1 wC7).1).1

/-- The kinematic body of w3C7. -/
def k3C7 : KinematicBody 2 Unit := (w3C7.kinematics[0]?).getD kC8

/-- The trigger area of w3C7. -/
def t3C7 : TriggerArea 2 Unit Unit := (w3C7.triggers[0]?).getD tC7

/-- A second kinematic body on layer one for the C5 witness. -/
def kC5b : KinematicBody 2 Unit :=
  { shape := 0, isometry := isoA, payload := (), layer := 1, mask := 1,
    weight := 1, bounce := false, velocity := v0, next_isometry := isoA,
    contacts := [] }

/-- A kinematic body with empty layer and mask: it can meet nothing. -/
def kC5z : KinematicBody 2 Unit :=
  { shape := 0, isometry := isoA, payload := (), layer := 0, mask := 0,
    weight := 1, bounce := false, velocity := v0, next_isometry := isoA,
    contacts := [] }

/-- A static body on layer one. -/
def sC5 : StaticBody 2 Unit :=
  { shape := 0, isometry := isoA, payload := (), layer := 1 }

/-- A world mixing the masked-out body kC5z with bodies on layer one. -/
def wC5 : World 2 Unit Unit :=
  { kinematics := [kC5z, kC5b], statics := [sC5], triggers := [tC7], epsilon := 1 }

/-! ### Theorems -/

theorem Contact.order_eq_iff {n : ℕ} {P : Type} (a b : Contact n P) (eps : ℚ) :
    Contact.order a b eps = Ordering.eq ↔ |a.toi - b.toi| < eps := by
  unfold Contact.order
  split_ifs with h1 h2 <;> simp [Contact.toi, h1]

theorem Contact.order_lt_iff {n : ℕ} {P : Type} (a b : Contact n P) (eps : ℚ) :
    Contact.order a b eps = Ordering.lt ↔ eps ≤ |a.toi - b.toi| ∧ a.toi < b.toi := by
  unfold Contact.order
  split_ifs with h1 h2
  · simp [Contact.toi, not_le.mpr h1]
  · simp [Contact.toi, not_lt.mp h1, h2]
  · simp [Contact.toi, h2]

theorem Contact.order_swap {n : ℕ} {P : Type} (a b : Contact n P) {eps : ℚ}
    (heps : 0 < eps) : Contact.order b a eps = (Contact.order a b eps).swap := by
  unfold Contact.order
  rw [abs_sub_comm b.hit.time_of_impact a.hit.time_of_impact]
  rcases lt_trichotomy a.hit.time_of_impact b.hit.time_of_impact with h | h | h
  · split_ifs with h1 h2 <;> simp_all [Ordering.swap] <;> linarith
  · have : |a.hit.time_of_impact - b.hit.time_of_impact| < eps := by
      rw [h]; simpa using heps
    rw [if_pos this, if_pos this]
    rfl
  · split_ifs with h1 h2 <;> simp_all [Ordering.swap] <;> linarith

theorem contactLE_iff {n : ℕ} {P : Type} (eps : ℚ) (a b : Contact n P) :
    contactLE eps a b ↔ (|a.toi - b.toi| < eps ∨ a.toi < b.toi) := by
  unfold contactLE Contact.order
  split_ifs with h1 h2
  · simp [Contact.toi, h1]
  · simp [Contact.toi, h2]
  · simp [Contact.toi, h1, h2]

theorem contactLE_total {n : ℕ} {P : Type} {eps : ℚ} (heps : 0 < eps)
    (a b : Contact n P) : contactLE eps a b ∨ contactLE eps b a := by
  rw [contactLE_iff, contactLE_iff]
  rcases lt_trichotomy a.toi b.toi with h | h | h
  · exact Or.inl (Or.inr h)
  · exact Or.inl (Or.inl (by rw [h]; simpa using heps))
  · exact Or.inr (Or.inr h)

theorem contactLE_lt_add {n : ℕ} {P : Type} {eps : ℚ} (heps : 0 < eps)
    {a b : Contact n P} (h : contactLE eps a b) : a.toi < b.toi + eps := by
  rw [contactLE_iff] at h
  rcases h with h | h
  · have := lt_of_le_of_lt (le_abs_self (a.toi - b.toi)) h
    linarith
  · linarith

/-- Transitivity of the comparator's non-strict order among the members
of a list, assuming epsilon-closeness of times of impact is transitive
among them. -/
theorem contactLE_trans_of {n : ℕ} {P : Type} {eps : ℚ} {l : List (Contact n P)}
    (htrans : ∀ a ∈ l, ∀ b ∈ l, ∀ c ∈ l,
      |a.toi - b.toi| < eps → |b.toi - c.toi| < eps → |a.toi - c.toi| < eps)
    {x y z : Contact n P} (hx : x ∈ l) (hy : y ∈ l) (hz : z ∈ l)
    (hxy : contactLE eps x y) (hyz : contactLE eps y z) : contactLE eps x z := by
  rw [contactLE_iff] at hxy hyz ⊢
  rcases hxy with h1 | h1 <;> rcases hyz with h2 | h2
  · exact Or.inl (htrans x hx y hy z hz h1 h2)
  · by_cases hxz : x.toi < z.toi
    · exact Or.inr hxz
    · refine Or.inl ?_
      have h1' := lt_of_le_of_lt (le_abs_self (x.toi - y.toi)) h1
      rw [abs_of_nonneg (by linarith : (0:ℚ) ≤ x.toi - z.toi)]
      linarith
  · by_cases hxz : x.toi < z.toi
    · exact Or.inr hxz
    · refine Or.inl ?_
      have h2' := lt_of_le_of_lt (le_abs_self (y.toi - z.toi)) h2
      rw [abs_of_nonneg (by linarith : (0:ℚ) ≤ x.toi - z.toi)]
      linarith
  · exact Or.inr (lt_trans h1 h2)

theorem pairwise_orderedInsert_of {α : Type} (r : α → α → Prop) [DecidableRel r]
    (a : α) : ∀ (l : List α),
    (∀ x ∈ a :: l, ∀ y ∈ a :: l, r x y ∨ r y x) →
    (∀ x ∈ a :: l, ∀ y ∈ a :: l, ∀ z ∈ a :: l, r x y → r y z → r x z) →
    l.Pairwise r → (l.orderedInsert r a).Pairwise r
  | [], _, _, _ => by simp [List.orderedInsert]
  | b :: t, total, htr, hp => by
    rw [List.orderedInsert]
    by_cases hab : r a b
    · rw [if_pos hab]
      refine List.Pairwise.cons ?_ hp
      intro x hx
      rcases List.mem_cons.mp hx with rfl | hx'
      · exact hab
      · exact htr a (by simp) b (by simp) x (by simp [hx'])
          hab (List.rel_of_pairwise_cons hp hx')
    · rw [if_neg hab]
      refine List.Pairwise.cons ?_ ?_
      · intro x hx
        have hx' : x = a ∨ x ∈ t := by
          have := (List.perm_orderedInsert r a t).mem_iff.mp hx
          simpa using this
        rcases hx' with rfl | hx'
        · rcases total b (by simp) x (by simp) with h | h
          · exact h
          · exact absurd h hab
        · exact List.rel_of_pairwise_cons hp hx'
      · have wk : ∀ x, x ∈ a :: t → x ∈ a :: b :: t := by
          intro x hx
          rcases List.mem_cons.mp hx with rfl | hx'
          · exact List.mem_cons_self _ _
          · exact List.mem_cons_of_mem _ (List.mem_cons_of_mem _ hx')
        exact pairwise_orderedInsert_of r a t
          (fun x hx y hy => total x (wk x hx) y (wk y hy))
          (fun x hx y hy z hz => htr x (wk x hx) y (wk y hy) z (wk z hz))
          hp.of_cons

theorem pairwise_insertionSort_of {α : Type} (r : α → α → Prop) [DecidableRel r] :
    ∀ (l : List α),
    (∀ x ∈ l, ∀ y ∈ l, r x y ∨ r y x) →
    (∀ x ∈ l, ∀ y ∈ l, ∀ z ∈ l, r x y → r y z → r x z) →
    (l.insertionSort r).Pairwise r
  | [], _, _ => by simp
  | a :: l, total, htr => by
    rw [List.insertionSort]
    have wk : ∀ x, x ∈ a :: l.insertionSort r → x ∈ a :: l := by
      intro x hx
      rcases List.mem_cons.mp hx with rfl | hx'
      · exact List.mem_cons_self _ _
      · exact List.mem_cons_of_mem _ ((List.mem_insertionSort r).mp hx')
    have wkl : ∀ x, x ∈ l → x ∈ a :: l := fun x hx => List.mem_cons_of_mem _ hx
    exact pairwise_orderedInsert_of r a (l.insertionSort r)
      (fun x hx y hy => total x (wk x hx) y (wk y hy))
      (fun x hx y hy z hz => htr x (wk x hx) y (wk y hy) z (wk z hz))
      (pairwise_insertionSort_of r l
        (fun x hx y hy => total x (wkl x hx) y (wkl y hy))
        (fun x hx y hy z hz => htr x (wkl x hx) y (wkl y hy) z (wkl z hz)))

/-- Claim C9, counterexample: with epsilon 1, the contacts with times of
impact 0, one half and 1 show that Equal under Contact::order is not
transitive, so the comparator is not a valid total order. -/
theorem c9_order_not_total_order :
    Contact.order cA cB 1 = Ordering.eq ∧ Contact.order cB cC 1 = Ordering.eq ∧
    Contact.order cA cC 1 = Ordering.lt ∧
    ¬ (∀ a b c : Contact 2 Unit, Contact.order a b 1 = Ordering.eq →
        Contact.order b c 1 = Ordering.eq → Contact.order a c 1 = Ordering.eq) := by
  have h1 : Contact.order cA cB 1 = Ordering.eq := by
    unfold Contact.order cA cB
    norm_num [abs_of_nonpos, abs_of_nonneg]
  have h2 : Contact.order cB cC 1 = Ordering.eq := by
    unfold Contact.order cB cC
    norm_num [abs_of_nonpos, abs_of_nonneg]
  have h3 : Contact.order cA cC 1 = Ordering.lt := by
    unfold Contact.order cA cC
    norm_num [abs_of_nonpos, abs_of_nonneg]
  refine ⟨h1, h2, h3, fun hall => ?_⟩
  have := hall cA cB cC h1 h2
  rw [h3] at this
  exact Ordering.noConfusion this

/-- Claim C9 (amended): for every positive epsilon, Contact::order answers
Equal exactly when the times of impact differ by less than epsilon, Less
exactly when they differ by at least epsilon with the first smaller, and
swapping the arguments swaps the answer, so the comparator is total and
antisymmetric; however epsilon-equality is not transitive (witnessed by
times of impact 0, epsilon over two and epsilon), so the comparator is
not a valid total order and the in-place sort in apply_contacts is only
specified for contact lists on which epsilon-closeness is transitive. -/
theorem c9_order_characterization {n : ℕ} {P : Type} (eps : ℚ) (heps : 0 < eps) :
    (∀ a b : Contact n P,
      (Contact.order a b eps = Ordering.eq ↔ |a.toi - b.toi| < eps) ∧
      (Contact.order a b eps = Ordering.lt ↔
        eps ≤ |a.toi - b.toi| ∧ a.toi < b.toi) ∧
      Contact.order b a eps = (Contact.order a b eps).swap) ∧
    (∃ a b c : Contact n Unit, Contact.order a b eps = Ordering.eq ∧
      Contact.order b c eps = Ordering.eq ∧ Contact.order a c eps = Ordering.lt) := by
  constructor
  · intro a b
    exact ⟨Contact.order_eq_iff a b eps, Contact.order_lt_iff a b eps,
      Contact.order_swap a b heps⟩
  · refine ⟨{ hit := { time_of_impact := 0, normal1 := 0, normal2 := 0 }, wfrac := 1, payload := () },
      { hit := { time_of_impact := eps / 2, normal1 := 0, normal2 := 0 }, wfrac := 1, payload := () },
      { hit := { time_of_impact := eps, normal1 := 0, normal2 := 0 }, wfrac := 1, payload := () }, ?_, ?_, ?_⟩
    · rw [Contact.order_eq_iff]
      simp only [Contact.toi]
      rw [abs_of_nonpos (by linarith)]
      linarith
    · rw [Contact.order_eq_iff]
      simp only [Contact.toi]
      rw [abs_of_nonpos (by linarith)]
      linarith
    · rw [Contact.order_lt_iff]
      simp only [Contact.toi]
      rw [abs_of_nonpos (by linarith)]
      constructor <;> linarith

/-- Claim C9 witness: instance of the characterization at epsilon 1. -/
theorem c9_order_characterization_witness :
    (0 : ℚ) < 1 ∧ Contact.order cB cA 1 = (Contact.order cA cB 1).swap :=
  ⟨by norm_num, ((c9_order_characterization (n := 2) (P := Unit) 1 (by norm_num)).1 cA cB).2.2⟩

/-- Claim C6, counterexample: with epsilon 1 and recorded contacts at
times of impact nine fifths, nine tenths and 0, each neighbouring pair is
epsilon-equal so the stable sort leaves the list unchanged; the contacts
at nine fifths and at 0 differ by at least epsilon, yet the farther one
is processed first. -/
theorem c6_toi_order_counterexample :
    sortContacts 1 [cT0, cT1, cT2] = [cT0, cT1, cT2] ∧
    (1 : ℚ) ≤ |cT0.toi - cT2.toi| ∧ cT2.toi < cT0.toi := by
  refine ⟨by with_unfolding_all rfl, ?_, ?_⟩
  · unfold Contact.toi cT0 cT2
    norm_num [abs_of_nonneg]
  · unfold Contact.toi cT0 cT2
    norm_num

/-- Claim C6 (amended): for positive epsilon, contacts whose times of
impact differ by less than epsilon compare Equal under Contact::order and
the stable sort keeps their original relative order; provided
epsilon-closeness of times of impact is transitive among the contacts of
the list (without which the comparator is not a total order on them), the
sorted list is ascending up to epsilon, and consequently of two contacts
whose times of impact differ by at least epsilon the nearer one is
processed before the farther one. -/
theorem c6_toi_order {n : ℕ} {P : Type} (eps : ℚ) (heps : 0 < eps)
    (l : List (Contact n P))
    (htrans : ∀ a ∈ l, ∀ b ∈ l, ∀ c ∈ l,
      |a.toi - b.toi| < eps → |b.toi - c.toi| < eps → |a.toi - c.toi| < eps) :
    (∀ a b : Contact n P, |a.toi - b.toi| < eps →
      Contact.order a b eps = Ordering.eq) ∧
    (∀ a b : Contact n P, [a, b].Sublist l → |a.toi - b.toi| < eps →
      [a, b].Sublist (sortContacts eps l)) ∧
    (sortContacts eps l).Pairwise (fun a b => a.toi < b.toi + eps) ∧
    (∀ a b : Contact n P, [a, b].Sublist (sortContacts eps l) →
      eps ≤ |a.toi - b.toi| → a.toi < b.toi) := by
  have hpw : (sortContacts eps l).Pairwise (contactLE eps) := by
    unfold sortContacts
    exact pairwise_insertionSort_of (contactLE eps) l
      (fun x _ y _ => contactLE_total heps x y)
      (fun x hx y hy z hz => contactLE_trans_of htrans hx hy hz)
  refine ⟨?_, ?_, ?_, ?_⟩
  · intro a b h
    exact (Contact.order_eq_iff a b eps).mpr h
  · intro a b hsub h
    have hab : contactLE eps a b := (contactLE_iff eps a b).mpr (Or.inl h)
    exact List.pair_sublist_insertionSort hab hsub
  · exact hpw.imp (fun h => contactLE_lt_add heps h)
  · intro a b hsub hge
    have : ([a, b] : List (Contact n P)).Pairwise (contactLE eps) :=
      hpw.sublist hsub
    have hab : contactLE eps a b := List.pairwise_pair.mp this
    have hlt := contactLE_lt_add heps hab
    rcases abs_cases (a.toi - b.toi) with ⟨habs, _⟩ | ⟨habs, _⟩
    · rw [habs] at hge
      linarith
    · rw [habs] at hge
      linarith

/-- Claim C6 witness: with epsilon 1 and the list holding the single pair
of contacts at times 0 and 1, closeness is vacuously transitive and the
sorted list is ascending up to epsilon. -/
theorem c6_toi_order_witness :
    (0 : ℚ) < 1 ∧
    (sortContacts 1 [cA, cC]).Pairwise (fun a b => a.toi < b.toi + 1) := by
  have h := c6_toi_order (n := 2) (P := Unit) 1 (by norm_num) [cA, cC] (by
    intro a ha b hb c hc h1 h2
    fin_cases ha <;> fin_cases hb <;> fin_cases hc <;>
      simp_all [Contact.toi, cA, cC] <;> norm_num at h1 h2 ⊢ <;> linarith)
  exact ⟨by norm_num, h.2.2.1⟩

/-- Claim C4, counterexample: apply_contacts does not clear the contact
list; with one recorded contact the list still holds it afterwards. -/
theorem c4_contacts_not_cleared :
    (KinematicBody.apply_contacts 1 1 kC4).contacts = [cA] ∧
    ([cA] : List (Contact 2 Unit)) ≠ [] := by
  constructor
  · with_unfolding_all rfl
  · exact List.cons_ne_nil _ _

/-- Claim C4 (amended): the contact list is empty at the end of
pre_update (which performs the clearing); apply_contacts does not empty
it but leaves the recorded contacts in place, sorted — a permutation of
the contacts recorded during the tick — and the list is cleared again
only by the next tick's pre_update. -/
theorem c4_contacts_lifecycle {n : ℕ} {B : Type} (dt eps : ℚ)
    (k : KinematicBody n B) :
    (KinematicBody.pre_update dt k).contacts = [] ∧
    (KinematicBody.apply_contacts dt eps k).contacts = sortContacts eps k.contacts ∧
    (KinematicBody.apply_contacts dt eps k).contacts.Perm k.contacts := by
  refine ⟨rfl, rfl, ?_⟩
  exact List.perm_insertionSort (contactLE eps) k.contacts

/-- The spec-side resolution loop agrees with the foldl of the embedded
loop body. -/
theorem foldl_resolveStep_eq {n : ℕ} {B : Type} (bounce : Bool) :
    ∀ (l : List (Contact n B)) (off vel : Vec n),
    l.foldl (resolveStep bounce) (off, vel) = specResolve bounce l off vel
  | [], _, _ => rfl
  | c :: rest, off, vel => by
    rw [List.foldl_cons, specResolve]
    have hstep : resolveStep bounce (off, vel) c =
        (off - scale c.hit.normal1 (c.hit.time_of_impact * c.wfrac),
         if 0 < dotV c.hit.normal1 vel then
           vel - scale c.hit.normal1 (dotV c.hit.normal1 vel * c.wfrac)
         else if dotV c.hit.normal1 vel ≤ 0 ∧ bounce then
           vel + scale c.hit.normal1 (dotV c.hit.normal1 vel * c.wfrac)
         else vel) := by
      unfold resolveStep
      by_cases hd : 0 < dotV c.hit.normal1 vel
      · simp [hd]
      · rcases Bool.eq_false_or_eq_true bounce with hb | hb <;>
          simp [hd, hb, not_lt.mp hd]
    rw [hstep]
    exact foldl_resolveStep_eq bounce rest _ _

/-- Claim C1: apply_contacts folds the sorted contacts exactly as the
specification describes — offset starts at zero, each contact subtracts
normal times time_of_impact times ratio from it and corrects the
velocity by normal times (normal dot velocity) times ratio, cutting when
the dot product is positive, reflecting when it is non-positive and the
body bounces, and leaving the velocity alone otherwise — and finally the
next isometry is translated by offset times delta_time exactly when the
offset is non-null with respect to epsilon. -/
theorem c1_apply_contacts_resolution {n : ℕ} {B : Type} (dt eps : ℚ)
    (k : KinematicBody n B) :
    (KinematicBody.apply_contacts dt eps k).velocity =
      (specResolve k.bounce (sortContacts eps k.contacts) 0 k.velocity).2 ∧
    (KinematicBody.apply_contacts dt eps k).next_isometry =
      (if ¬ isNull (specResolve k.bounce (sortContacts eps k.contacts) 0 k.velocity).1 eps
       then k.next_isometry.appendTranslation
         (scale (specResolve k.bounce (sortContacts eps k.contacts) 0 k.velocity).1 dt)
       else k.next_isometry) := by
  unfold KinematicBody.apply_contacts
  dsimp only
  rw [foldl_resolveStep_eq]
  exact ⟨rfl, rfl⟩

/-- Claim C2: add_contact records weight_ratio one minus
self.weight over (self.weight plus other.weight) when the other weight is
supplied, which equals other.weight over the sum, records weight_ratio 1
when no other weight is supplied, and two equal positive weights yield
weight_ratio one half. -/
theorem c2_weight_ratio_def {n : ℕ} {B : Type} (k : KinematicBody n B)
    (hit : ShapeCastHit n) (ow : ℚ) (p : B)
    (hw : 0 < k.weight) (ho : 0 < ow) :
    (KinematicBody.add_contact hit (some ow) p k).contacts =
      k.contacts ++ [{ hit := hit, wfrac := 1 - k.weight / (k.weight + ow), payload := p }] ∧
    1 - k.weight / (k.weight + ow) = ow / (k.weight + ow) ∧
    (KinematicBody.add_contact hit none p k).contacts =
      k.contacts ++ [{ hit := hit, wfrac := 1, payload := p }] ∧
    (k.weight = ow → 1 - k.weight / (k.weight + ow) = 1 / 2) := by
  have hsum : k.weight + ow ≠ 0 := by positivity
  refine ⟨rfl, ?_, rfl, ?_⟩
  · field_simp
  · intro hww
    rw [hww]
    have h2 : ow + ow ≠ 0 := by positivity
    field_simp
    ring

/-- Claim C2 witness: two bodies of weight 1 in contact; the ratio is
one half. -/
theorem c2_weight_ratio_def_witness :
    ((0 : ℚ) < kC2.weight ∧ (0 : ℚ) < 1) ∧
    1 - kC2.weight / (kC2.weight + 1) = 1 / (kC2.weight + 1) ∧
    (kC2.weight = 1 → 1 - kC2.weight / (kC2.weight + 1) = 1 / 2) := by
  have h := c2_weight_ratio_def kC2 hitW 1 () (by norm_num [kC2]) (by norm_num)
  exact ⟨⟨by norm_num [kC2], by norm_num⟩, h.2.1, h.2.2.2⟩

theorem Aabb.overlaps_symm {n : ℕ} {a b : Aabb n} (h : a.overlaps b) :
    b.overlaps a := by
  unfold Aabb.overlaps PAabb.intersects at h ⊢
  refine ⟨⟨?_, ?_⟩, fun i => ⟨(h.2 i).2, (h.2 i).1⟩⟩
  · rw [Nat.land_comm]; exact h.1.2
  · rw [Nat.land_comm]; exact h.1.1

/-- Claim C10: code bug exhibit. For the ray with origin ten (on each
axis), direction one and max_time_of_impact 1, the point reached at time
1 — inside the cast interval — lies outside the box Aabb::from_ray
builds, because the source takes the inf and sup of the origin with
dir times max_time_of_impact instead of origin plus dir times
max_time_of_impact; raycast's broadphase can therefore miss bodies on the
ray segment. -/
theorem c10_from_ray_misses_ray_point :
    ((0 : ℚ) ≤ 1 ∧ (1 : ℚ) ≤ 1) ∧
    ¬ (Aabb.from_ray rayO rayD 1 maskAll 1).box.containsPt (rayO + scale rayD 1) := by
  refine ⟨⟨by norm_num, le_refl 1⟩, fun h => ?_⟩
  have h0 := (h 0).2
  unfold Aabb.from_ray rayO rayD scale at h0
  simp only [Pi.add_apply] at h0
  norm_num at h0

theorem strip_add_contact {n : ℕ} {B : Type} (hit : ShapeCastHit n)
    (ow : Option ℚ) (p : B) (k : KinematicBody n B) :
    (KinematicBody.add_contact hit ow p k).strip = k.strip := rfl

theorem kinAabb_strip {n : ℕ} {B : Type} (K : Kernel n) {a b : KinematicBody n B}
    (h : a.strip = b.strip) : kinAabb K a = kinAabb K b := by
  have h1 := congrArg KinematicBody.shape h
  have h2 := congrArg KinematicBody.isometry h
  have h3 := congrArg KinematicBody.next_isometry h
  have h4 := congrArg KinematicBody.layer h
  have h5 := congrArg KinematicBody.mask h
  simp only [KinematicBody.strip] at h1 h2 h3 h4 h5
  unfold kinAabb
  rw [h1, h2, h3, h4, h5]

theorem masksOf_strip {n : ℕ} {B : Type} {a b : KinematicBody n B}
    (h : a.strip = b.strip) : masksOf a = masksOf b := by
  have h4 := congrArg KinematicBody.layer h
  have h5 := congrArg KinematicBody.mask h
  simp only [KinematicBody.strip] at h4 h5
  unfold masksOf
  rw [h4, h5]

theorem masksOf_applyKMut {n : ℕ} {B : Type} (k : KinematicBody n B) (m : KMut n B) :
    masksOf (k.applyKMut m) = masksOf k := rfl

theorem masksOf_pre_update {n : ℕ} {B : Type} (dt : ℚ) (k : KinematicBody n B) :
    masksOf (KinematicBody.pre_update dt k) = masksOf k := rfl

theorem masksOf_apply_contacts {n : ℕ} {B : Type} (dt eps : ℚ)
    (k : KinematicBody n B) :
    masksOf (KinematicBody.apply_contacts dt eps k) = masksOf k := rfl

theorem trigProj_set_payload {n : ℕ} {T B : Type} (t : TriggerArea n T B) (x : T) :
    trigProj { t with payload := x } = trigProj t := rfl

theorem fireInputs_of_trigProj {n : ℕ} {T B : Type} (K : Kernel n)
    {t t' : TriggerArea n T B} (h : trigProj t = trigProj t') :
    trigAabb K t = trigAabb K t' ∧ t.isometry = t'.isometry ∧ t.shape = t'.shape := by
  have h1 : t.shape = t'.shape := congrArg Prod.fst h
  have h2 : t.isometry = t'.isometry := congrArg (fun p => p.2.1) h
  have h3 : t.mask = t'.mask := congrArg (fun p => p.2.2) h
  exact ⟨by unfold trigAabb; rw [h1, h2, h3], h2, h1⟩

theorem ksStep_strip {n : ℕ} {B : Type} (K : Kernel n) (dt : ℚ) (a : Aabb n)
    (i : ℕ) (s : KinematicBody n B × List Event) (p : ℕ × StaticBody n B) :
    (ksStep K dt a i s p).1.strip = s.1.strip := by
  unfold ksStep
  split_ifs
  · rcases K.castShapes s.1.isometry s.1.velocity s.1.shape
      p.2.isometry 0 p.2.shape dt with _ | hit <;> rfl
  · rfl

theorem ksFold_strip {n : ℕ} {B : Type} (K : Kernel n) (dt : ℚ) (a : Aabb n)
    (i : ℕ) : ∀ (l : List (ℕ × StaticBody n B))
    (s : KinematicBody n B × List Event),
    ((l.foldl (ksStep K dt a i) s).1).strip = s.1.strip
  | [], _ => rfl
  | p :: l, s => by
    rw [List.foldl_cons, ksFold_strip K dt a i l (ksStep K dt a i s p)]
    exact ksStep_strip K dt a i s p

theorem ksFold_events {n : ℕ} {B : Type} (K : Kernel n) (dt : ℚ) (a : Aabb n)
    (i : ℕ) : ∀ (l : List (ℕ × StaticBody n B))
    (s : KinematicBody n B × List Event),
    ∃ new, (l.foldl (ksStep K dt a i) s).2 = s.2 ++ new ∧
      ∀ e ∈ new, ∃ p ∈ l, e = Event.contactWithStatic i p.1 ∧
        a.overlaps (staticAabb K p.2)
  | [], s => ⟨[], by simp⟩
  | p :: l, s => by
    obtain ⟨new, hev, hmem⟩ := ksFold_events K dt a i l (ksStep K dt a i s p)
    rw [List.foldl_cons]
    unfold ksStep at hev ⊢
    split_ifs at hev ⊢ with hov
    · rcases hc : K.castShapes s.1.isometry s.1.velocity s.1.shape
        p.2.isometry 0 p.2.shape dt with _ | hit
      · rw [hc] at hev
        refine ⟨new, hev, fun e he => ?_⟩
        obtain ⟨q, hq, hform⟩ := hmem e he
        exact ⟨q, List.mem_cons_of_mem _ hq, hform⟩
      · rw [hc] at hev
        dsimp only at hev
        refine ⟨Event.contactWithStatic i p.1 :: new, by simpa using hev,
          fun e he => ?_⟩
        rcases List.mem_cons.mp he with rfl | he'
        · exact ⟨p, List.mem_cons_self _ _, rfl, hov⟩
        · obtain ⟨q, hq, hform⟩ := hmem e he'
          exact ⟨q, List.mem_cons_of_mem _ hq, hform⟩
    · refine ⟨new, hev, fun e he => ?_⟩
      obtain ⟨q, hq, hform⟩ := hmem e he
      exact ⟨q, List.mem_cons_of_mem _ hq, hform⟩

theorem masksOf_add_contact {n : ℕ} {B : Type} (hit : ShapeCastHit n)
    (ow : Option ℚ) (p : B) (k : KinematicBody n B) :
    masksOf (KinematicBody.add_contact hit ow p k) = masksOf k := rfl

theorem kinAabb_add_contact {n : ℕ} {B : Type} (K : Kernel n) (hit : ShapeCastHit n)
    (ow : Option ℚ) (p : B) (k : KinematicBody n B) :
    kinAabb K (KinematicBody.add_contact hit ow p k) = kinAabb K k := rfl

/-! #### The kinematic-pair fold -/

theorem kkStep_getElem_map {n : ℕ} {B : Type} {γ : Type} (K : Kernel n) (dt : ℚ)
    (f : KinematicBody n B → γ)
    (hf : ∀ hit ow p k, f (KinematicBody.add_contact hit ow p k) = f k)
    (s : List (KinematicBody n B) × List Event) (p : ℕ × ℕ) (i : ℕ) :
    ((kkStep K dt s p).1[i]?).map f = (s.1[i]?).map f := by
  unfold kkStep
  cases h1 : s.1[p.1]? with
  | none => rfl
  | some k1 =>
    cases h2 : s.1[p.2]? with
    | none => rfl
    | some k2 =>
      dsimp only
      split_ifs with hov
      · cases hc : K.castShapes k1.isometry k1.velocity k1.shape
          k2.isometry k2.velocity k2.shape dt with
        | none => rfl
        | some hit =>
          dsimp only
          have hl1 : p.1 < s.1.length := (List.getElem?_eq_some_iff.mp h1).1
          have hl2 : p.2 < s.1.length := (List.getElem?_eq_some_iff.mp h2).1
          by_cases hi2 : p.2 = i
          · subst hi2
            rw [List.getElem?_set_self (by simpa using hl2), h2]
            simp [hf]
          · rw [List.getElem?_set_ne hi2]
            by_cases hi1 : p.1 = i
            · subst hi1
              rw [List.getElem?_set_self hl1, h1]
              simp [hf]
            · rw [List.getElem?_set_ne hi1]
      · rfl

theorem kkFold_getElem_map {n : ℕ} {B : Type} {γ : Type} (K : Kernel n) (dt : ℚ)
    (f : KinematicBody n B → γ)
    (hf : ∀ hit ow p k, f (KinematicBody.add_contact hit ow p k) = f k) :
    ∀ (pairs : List (ℕ × ℕ)) (s : List (KinematicBody n B) × List Event) (i : ℕ),
    ((pairs.foldl (kkStep K dt) s).1[i]?).map f = (s.1[i]?).map f
  | [], _, _ => rfl
  | p :: pairs, s, i => by
    rw [List.foldl_cons,
      kkFold_getElem_map K dt f hf pairs (kkStep K dt s p) i]
    exact kkStep_getElem_map K dt f hf s p i

theorem kkFold_events {n : ℕ} {B : Type} (K : Kernel n) (dt : ℚ) :
    ∀ (pairs : List (ℕ × ℕ)) (s : List (KinematicBody n B) × List Event),
    ∃ new, (pairs.foldl (kkStep K dt) s).2 = s.2 ++ new ∧
      ∀ e ∈ new, ∃ p ∈ pairs, ∃ m1 m2 : ℕ × ℕ,
        (s.1[p.1]?).map masksOf = some m1 ∧ (s.1[p.2]?).map masksOf = some m2 ∧
        (e = Event.contactWithKinematic p.1 p.2 ∨
         e = Event.contactWithKinematic p.2 p.1) ∧
        m1.1 &&& m2.2 ≠ 0 ∧ m1.2 &&& m2.1 ≠ 0
  | [], s => ⟨[], by simp⟩
  | p :: pairs, s => by
    obtain ⟨new, hev, hmem⟩ := kkFold_events K dt pairs (kkStep K dt s p)
    rw [List.foldl_cons]
    have transport : ∀ e ∈ new, ∃ q ∈ p :: pairs, ∃ m1 m2 : ℕ × ℕ,
        (s.1[q.1]?).map masksOf = some m1 ∧ (s.1[q.2]?).map masksOf = some m2 ∧
        (e = Event.contactWithKinematic q.1 q.2 ∨
         e = Event.contactWithKinematic q.2 q.1) ∧
        m1.1 &&& m2.2 ≠ 0 ∧ m1.2 &&& m2.1 ≠ 0 := by
      intro e he
      obtain ⟨q, hq, m1, m2, hm1, hm2, hform, hcond⟩ := hmem e he
      refine ⟨q, List.mem_cons_of_mem _ hq, m1, m2, ?_, ?_, hform, hcond⟩
      · rw [← kkStep_getElem_map K dt masksOf (masksOf_add_contact) s p q.1]
        exact hm1
      · rw [← kkStep_getElem_map K dt masksOf (masksOf_add_contact) s p q.2]
        exact hm2
    unfold kkStep at hev ⊢
    cases h1 : s.1[p.1]? with
    | none =>
      rw [h1] at hev
      exact ⟨new, hev, transport⟩
    | some k1 =>
      cases h2 : s.1[p.2]? with
      | none =>
        rw [h1, h2] at hev
        exact ⟨new, hev, transport⟩
      | some k2 =>
        rw [h1, h2] at hev
        dsimp only at hev ⊢
        split_ifs at hev ⊢ with hov
        · cases hc : K.castShapes k1.isometry k1.velocity k1.shape
            k2.isometry k2.velocity k2.shape dt with
          | none =>
            rw [hc] at hev
            exact ⟨new, hev, transport⟩
          | some hit =>
            rw [hc] at hev
            dsimp only at hev
            refine ⟨Event.contactWithKinematic p.1 p.2 ::
              Event.contactWithKinematic p.2 p.1 :: new, by simpa using hev,
              fun e he => ?_⟩
            have hcond : (masksOf k1).1 &&& (masksOf k2).2 ≠ 0 ∧
                (masksOf k1).2 &&& (masksOf k2).1 ≠ 0 := by
              have := hov.1
              exact this
            rcases List.mem_cons.mp he with rfl | he'
            · exact ⟨p, List.mem_cons_self _ _, masksOf k1, masksOf k2,
                by rw [h1]; rfl, by rw [h2]; rfl, Or.inl rfl, hcond⟩
            · rcases List.mem_cons.mp he' with rfl | he''
              · exact ⟨p, List.mem_cons_self _ _, masksOf k1, masksOf k2,
                  by rw [h1]; rfl, by rw [h2]; rfl, Or.inr rfl, hcond⟩
              · exact transport e he''
        · exact ⟨new, hev, transport⟩

/-! #### The trigger folds -/

theorem trigInner_trig_getElem_map {n : ℕ} {B T : Type} {γ : Type} (K : Kernel n)
    (ki : ℕ) (a : Aabb n) (g : TriggerArea n T B → γ)
    (hg : ∀ (t : TriggerArea n T B) (x : T), g { t with payload := x } = g t)
    (s : KinematicBody n B × List (TriggerArea n T B) × List Event) (ti tj : ℕ) :
    ((trigInner K ki a s ti).2.1[tj]?).map g = (s.2.1[tj]?).map g := by
  unfold trigInner
  cases h : s.2.1[ti]? with
  | none => rfl
  | some t =>
    dsimp only
    split_ifs with hov htest
    · have hl : ti < s.2.1.length := (List.getElem?_eq_some_iff.mp h).1
      by_cases hji : ti = tj
      · subst hji
        rw [List.getElem?_set_self hl, h]
        simp [hg]
      · rw [List.getElem?_set_ne hji]
    · rfl
    · rfl

theorem trigInner_kin_map {n : ℕ} {B T : Type} {γ : Type} (K : Kernel n)
    (ki : ℕ) (a : Aabb n) (f : KinematicBody n B → γ)
    (hf : ∀ (k : KinematicBody n B) (m : KMut n B), f (k.applyKMut m) = f k)
    (s : KinematicBody n B × List (TriggerArea n T B) × List Event) (ti : ℕ) :
    f (trigInner K ki a s ti).1 = f s.1 := by
  unfold trigInner
  cases h : s.2.1[ti]? with
  | none => rfl
  | some t =>
    dsimp only
    split_ifs with hov htest
    · exact hf s.1 _
    · rfl
    · rfl

theorem trigInnerFold_trig_getElem_map {n : ℕ} {B T : Type} {γ : Type}
    (K : Kernel n) (ki : ℕ) (a : Aabb n) (g : TriggerArea n T B → γ)
    (hg : ∀ (t : TriggerArea n T B) (x : T), g { t with payload := x } = g t) :
    ∀ (tis : List ℕ)
    (s : KinematicBody n B × List (TriggerArea n T B) × List Event) (tj : ℕ),
    ((tis.foldl (trigInner K ki a) s).2.1[tj]?).map g = (s.2.1[tj]?).map g
  | [], _, _ => rfl
  | ti :: tis, s, tj => by
    rw [List.foldl_cons,
      trigInnerFold_trig_getElem_map K ki a g hg tis (trigInner K ki a s ti) tj]
    exact trigInner_trig_getElem_map K ki a g hg s ti tj

theorem trigInnerFold_kin_map {n : ℕ} {B T : Type} {γ : Type} (K : Kernel n)
    (ki : ℕ) (a : Aabb n) (f : KinematicBody n B → γ)
    (hf : ∀ (k : KinematicBody n B) (m : KMut n B), f (k.applyKMut m) = f k) :
    ∀ (tis : List ℕ)
    (s : KinematicBody n B × List (TriggerArea n T B) × List Event),
    f (tis.foldl (trigInner K ki a) s).1 = f s.1
  | [], _ => rfl
  | ti :: tis, s => by
    rw [List.foldl_cons,
      trigInnerFold_kin_map K ki a f hf tis (trigInner K ki a s ti)]
    exact trigInner_kin_map K ki a f hf s ti

theorem trigInnerFold_events {n : ℕ} {B T : Type} (K : Kernel n) (ki : ℕ)
    (a : Aabb n) : ∀ (tis : List ℕ)
    (s : KinematicBody n B × List (TriggerArea n T B) × List Event),
    ∃ new, (tis.foldl (trigInner K ki a) s).2.2 = s.2.2 ++ new ∧
      ∀ e ∈ new, ∃ ti ∈ tis, ∃ tm,
        (s.2.1[ti]?).map (fun t => t.mask) = some tm ∧
        e = Event.triggerFired ki ti ∧
        a.layer &&& tm ≠ 0 ∧ a.mask &&& maskAll ≠ 0
  | [], s => ⟨[], by simp⟩
  | ti :: tis, s => by
    obtain ⟨new, hev, hmem⟩ := trigInnerFold_events K ki a tis (trigInner K ki a s ti)
    rw [List.foldl_cons]
    have transport : ∀ e ∈ new, ∃ q ∈ ti :: tis, ∃ tm,
        (s.2.1[q]?).map (fun t => t.mask) = some tm ∧
        e = Event.triggerFired ki q ∧
        a.layer &&& tm ≠ 0 ∧ a.mask &&& maskAll ≠ 0 := by
      intro e he
      obtain ⟨q, hq, tm, htm, hform, hcond⟩ := hmem e he
      refine ⟨q, List.mem_cons_of_mem _ hq, tm, ?_, hform, hcond⟩
      rw [← trigInner_trig_getElem_map K ki a (fun t => t.mask)
        (fun _ _ => rfl) s ti q]
      exact htm
    unfold trigInner at hev ⊢
    cases h : s.2.1[ti]? with
    | none =>
      rw [h] at hev
      exact ⟨new, hev, transport⟩
    | some t =>
      rw [h] at hev
      dsimp only at hev ⊢
      split_ifs at hev ⊢ with hov htest
      · dsimp only at hev
        refine ⟨Event.triggerFired ki ti :: new, by simpa using hev,
          fun e he => ?_⟩
        rcases List.mem_cons.mp he with rfl | he'
        · exact ⟨ti, List.mem_cons_self _ _, t.mask, by rw [h]; rfl, rfl,
            hov.1.1, hov.1.2⟩
        · exact transport e he'
      · exact ⟨new, hev, transport⟩
      · exact ⟨new, hev, transport⟩

theorem trigOuter_kin_getElem_map {n : ℕ} {B T : Type} {γ : Type} (K : Kernel n)
    (f : KinematicBody n B → γ)
    (hf : ∀ (k : KinematicBody n B) (m : KMut n B), f (k.applyKMut m) = f k)
    (s : List (KinematicBody n B) × List (TriggerArea n T B) × List Event)
    (ki i : ℕ) :
    ((trigOuter K s ki).1[i]?).map f = (s.1[i]?).map f := by
  unfold trigOuter
  cases h : s.1[ki]? with
  | none => rfl
  | some k =>
    dsimp only
    have hl : ki < s.1.length := (List.getElem?_eq_some_iff.mp h).1
    by_cases hki : ki = i
    · subst hki
      rw [List.getElem?_set_self hl, h]
      exact congrArg some
        (trigInnerFold_kin_map K ki (kinAabb K k) f hf _ _)
    · rw [List.getElem?_set_ne hki]

theorem trigOuter_trig_getElem_map {n : ℕ} {B T : Type} {γ : Type} (K : Kernel n)
    (g : TriggerArea n T B → γ)
    (hg : ∀ (t : TriggerArea n T B) (x : T), g { t with payload := x } = g t)
    (s : List (KinematicBody n B) × List (TriggerArea n T B) × List Event)
    (ki tj : ℕ) :
    ((trigOuter K s ki).2.1[tj]?).map g = (s.2.1[tj]?).map g := by
  unfold trigOuter
  cases h : s.1[ki]? with
  | none => rfl
  | some k =>
    dsimp only
    exact trigInnerFold_trig_getElem_map K ki (kinAabb K k) g hg _ _ tj

theorem trigOuterFold_kin_getElem_map {n : ℕ} {B T : Type} {γ : Type}
    (K : Kernel n) (f : KinematicBody n B → γ)
    (hf : ∀ (k : KinematicBody n B) (m : KMut n B), f (k.applyKMut m) = f k) :
    ∀ (kis : List ℕ)
    (s : List (KinematicBody n B) × List (TriggerArea n T B) × List Event) (i : ℕ),
    ((kis.foldl (trigOuter K) s).1[i]?).map f = (s.1[i]?).map f
  | [], _, _ => rfl
  | ki :: kis, s, i => by
    rw [List.foldl_cons, trigOuterFold_kin_getElem_map K f hf kis (trigOuter K s ki) i]
    exact trigOuter_kin_getElem_map K f hf s ki i

theorem trigOuterFold_trig_getElem_map {n : ℕ} {B T : Type} {γ : Type}
    (K : Kernel n) (g : TriggerArea n T B → γ)
    (hg : ∀ (t : TriggerArea n T B) (x : T), g { t with payload := x } = g t) :
    ∀ (kis : List ℕ)
    (s : List (KinematicBody n B) × List (TriggerArea n T B) × List Event) (tj : ℕ),
    ((kis.foldl (trigOuter K) s).2.1[tj]?).map g = (s.2.1[tj]?).map g
  | [], _, _ => rfl
  | ki :: kis, s, tj => by
    rw [List.foldl_cons, trigOuterFold_trig_getElem_map K g hg kis (trigOuter K s ki) tj]
    exact trigOuter_trig_getElem_map K g hg s ki tj

theorem trigOuter_events {n : ℕ} {B T : Type} (K : Kernel n)
    (s : List (KinematicBody n B) × List (TriggerArea n T B) × List Event)
    (ki : ℕ) :
    ∃ new, (trigOuter K s ki).2.2 = s.2.2 ++ new ∧
      ∀ e ∈ new, ∃ ti, ∃ km : ℕ × ℕ, ∃ tm,
        (s.1[ki]?).map masksOf = some km ∧
        (s.2.1[ti]?).map (fun t => t.mask) = some tm ∧
        e = Event.triggerFired ki ti ∧
        km.1 &&& tm ≠ 0 ∧ km.2 &&& maskAll ≠ 0 := by
  unfold trigOuter
  cases h : s.1[ki]? with
  | none => exact ⟨[], by simp⟩
  | some k =>
    dsimp only
    obtain ⟨new0, hev0, hmem0⟩ := trigInnerFold_events K ki (kinAabb K k)
      (List.range s.2.1.length) (k, s.2.1, s.2.2)
    refine ⟨new0, hev0, fun e he => ?_⟩
    obtain ⟨ti, _, tm, htm, hform, hcond⟩ := hmem0 e he
    exact ⟨ti, masksOf k, tm, rfl, htm, hform, hcond⟩

theorem trigOuterFold_events {n : ℕ} {B T : Type} (K : Kernel n) :
    ∀ (kis : List ℕ)
    (s : List (KinematicBody n B) × List (TriggerArea n T B) × List Event),
    ∃ new, (kis.foldl (trigOuter K) s).2.2 = s.2.2 ++ new ∧
      ∀ e ∈ new, ∃ ki ∈ kis, ∃ ti, ∃ km : ℕ × ℕ, ∃ tm,
        (s.1[ki]?).map masksOf = some km ∧
        (s.2.1[ti]?).map (fun t => t.mask) = some tm ∧
        e = Event.triggerFired ki ti ∧
        km.1 &&& tm ≠ 0 ∧ km.2 &&& maskAll ≠ 0
  | [], s => ⟨[], by simp⟩
  | ki :: kis, s => by
    obtain ⟨new, hev, hmem⟩ := trigOuterFold_events K kis (trigOuter K s ki)
    obtain ⟨new0, hev0, hmem0⟩ := trigOuter_events K s ki
    rw [List.foldl_cons]
    rw [hev, hev0, List.append_assoc]
    refine ⟨new0 ++ new, rfl, fun e he => ?_⟩
    rcases List.mem_append.mp he with he0 | he'
    · obtain ⟨ti, km, tm, hkm, htm, hform, hcond⟩ := hmem0 e he0
      exact ⟨ki, List.mem_cons_self _ _, ti, km, tm, hkm, htm, hform, hcond⟩
    · obtain ⟨q, hq, ti, km, tm, hkm, htm, hform, hcond⟩ := hmem e he'
      refine ⟨q, List.mem_cons_of_mem _ hq, ti, km, tm, ?_, ?_, hform, hcond⟩
      · rw [← trigOuter_kin_getElem_map K masksOf masksOf_applyKMut s ki q]
        exact hkm
      · rw [← trigOuter_trig_getElem_map K (fun t => t.mask)
          (fun _ _ => rfl) s ki ti]
        exact htm

/-! #### Phase-level characterizations -/

theorem ksBody_fst_strip {n : ℕ} {B : Type} (K : Kernel n) (dt : ℚ)
    (statics : List (StaticBody n B)) (i : ℕ) (k : KinematicBody n B) :
    (ksBody K dt statics i k).1.strip = (KinematicBody.pre_update dt k).strip := by
  unfold ksBody
  exact ksFold_strip K dt _ i statics.enum _

theorem ksPhase_getElem {n : ℕ} {B T : Type} (K : Kernel n) (dt : ℚ)
    (w : World n B T) (i : ℕ) :
    (ksPhase K dt w).1.kinematics[i]? =
      (w.kinematics[i]?).map (fun k => (ksBody K dt w.statics i k).1) := by
  unfold ksPhase
  dsimp only
  rw [List.getElem?_map, List.getElem?_map, List.getElem?_enum]
  cases w.kinematics[i]? <;> rfl

theorem ksPhase_statics {n : ℕ} {B T : Type} (K : Kernel n) (dt : ℚ)
    (w : World n B T) : (ksPhase K dt w).1.statics = w.statics := rfl

theorem ksPhase_triggers {n : ℕ} {B T : Type} (K : Kernel n) (dt : ℚ)
    (w : World n B T) : (ksPhase K dt w).1.triggers = w.triggers := rfl

theorem ksPhase_epsilon {n : ℕ} {B T : Type} (K : Kernel n) (dt : ℚ)
    (w : World n B T) : (ksPhase K dt w).1.epsilon = w.epsilon := rfl

theorem ksPhase_events {n : ℕ} {B T : Type} (K : Kernel n) (dt : ℚ)
    (w : World n B T) :
    ∀ e ∈ (ksPhase K dt w).2, ∃ i k, w.kinematics[i]? = some k ∧
      ∃ si st, w.statics[si]? = some st ∧
        e = Event.contactWithStatic i si ∧
        (kinAabb K (KinematicBody.pre_update dt k)).overlaps (staticAabb K st) := by
  intro e he
  unfold ksPhase at he
  dsimp only at he
  rw [List.mem_flatten] at he
  obtain ⟨l, hl, hel⟩ := he
  rw [List.mem_map] at hl
  obtain ⟨r, hr, rfl⟩ := hl
  rw [List.mem_map] at hr
  obtain ⟨p, hp, rfl⟩ := hr
  have hpk : w.kinematics[p.1]? = some p.2 := List.mem_enum_iff_getElem?.mp hp
  unfold ksBody at hel
  obtain ⟨new, hev, hmem⟩ := ksFold_events K dt
    (kinAabb K (KinematicBody.pre_update dt p.2)) p.1 w.statics.enum
    (KinematicBody.pre_update dt p.2, [])
  rw [hev] at hel
  simp only [List.nil_append] at hel
  obtain ⟨q, hq, hform, hov⟩ := hmem e hel
  exact ⟨p.1, p.2, hpk, q.1, q.2, List.mem_enum_iff_getElem?.mp hq, hform, hov⟩

theorem kkPhase_getElem_map {n : ℕ} {B T : Type} {γ : Type} (K : Kernel n)
    (dt : ℚ) (f : KinematicBody n B → γ)
    (hf : ∀ hit ow p k, f (KinematicBody.add_contact hit ow p k) = f k)
    (w : World n B T) (i : ℕ) :
    ((kkPhase K dt w).1.kinematics[i]?).map f = (w.kinematics[i]?).map f := by
  unfold kkPhase
  dsimp only
  exact kkFold_getElem_map K dt f hf _ _ i

theorem kkPhase_statics {n : ℕ} {B T : Type} (K : Kernel n) (dt : ℚ)
    (w : World n B T) : (kkPhase K dt w).1.statics = w.statics := rfl

theorem kkPhase_triggers {n : ℕ} {B T : Type} (K : Kernel n) (dt : ℚ)
    (w : World n B T) : (kkPhase K dt w).1.triggers = w.triggers := rfl

theorem kkPhase_epsilon {n : ℕ} {B T : Type} (K : Kernel n) (dt : ℚ)
    (w : World n B T) : (kkPhase K dt w).1.epsilon = w.epsilon := rfl

theorem kkPhase_events {n : ℕ} {B T : Type} (K : Kernel n) (dt : ℚ)
    (w : World n B T) :
    ∀ e ∈ (kkPhase K dt w).2, ∃ p ∈ kkPairs w.kinematics.length,
      ∃ m1 m2 : ℕ × ℕ,
        (w.kinematics[p.1]?).map masksOf = some m1 ∧
        (w.kinematics[p.2]?).map masksOf = some m2 ∧
        (e = Event.contactWithKinematic p.1 p.2 ∨
         e = Event.contactWithKinematic p.2 p.1) ∧
        m1.1 &&& m2.2 ≠ 0 ∧ m1.2 &&& m2.1 ≠ 0 := by
  intro e he
  unfold kkPhase at he
  dsimp only at he
  obtain ⟨new, hev, hmem⟩ := kkFold_events K dt
    (kkPairs w.kinematics.length) (w.kinematics, [])
  rw [hev] at he
  simp only [List.nil_append] at he
  exact hmem e he

theorem resolvePhase_getElem {n : ℕ} {B T : Type} (dt : ℚ) (w : World n B T)
    (i : ℕ) :
    (resolvePhase dt w).kinematics[i]? =
      (w.kinematics[i]?).map (KinematicBody.apply_contacts dt w.epsilon) := by
  unfold resolvePhase
  dsimp only
  rw [List.getElem?_map]

theorem resolvePhase_statics {n : ℕ} {B T : Type} (dt : ℚ) (w : World n B T) :
    (resolvePhase dt w).statics = w.statics := rfl

theorem resolvePhase_triggers {n : ℕ} {B T : Type} (dt : ℚ) (w : World n B T) :
    (resolvePhase dt w).triggers = w.triggers := rfl

theorem trigPhase_getElem_map {n : ℕ} {B T : Type} {γ : Type} (K : Kernel n)
    (f : KinematicBody n B → γ)
    (hf : ∀ (k : KinematicBody n B) (m : KMut n B), f (k.applyKMut m) = f k)
    (w : World n B T) (i : ℕ) :
    ((trigPhase K w).1.kinematics[i]?).map f = (w.kinematics[i]?).map f := by
  unfold trigPhase
  dsimp only
  exact trigOuterFold_kin_getElem_map K f hf _ _ i

theorem trigPhase_trig_getElem_map {n : ℕ} {B T : Type} {γ : Type} (K : Kernel n)
    (g : TriggerArea n T B → γ)
    (hg : ∀ (t : TriggerArea n T B) (x : T), g { t with payload := x } = g t)
    (w : World n B T) (tj : ℕ) :
    ((trigPhase K w).1.triggers[tj]?).map g = (w.triggers[tj]?).map g := by
  unfold trigPhase
  dsimp only
  exact trigOuterFold_trig_getElem_map K g hg _ _ tj

theorem trigPhase_statics {n : ℕ} {B T : Type} (K : Kernel n) (w : World n B T) :
    (trigPhase K w).1.statics = w.statics := rfl

theorem trigPhase_events {n : ℕ} {B T : Type} (K : Kernel n) (w : World n B T) :
    ∀ e ∈ (trigPhase K w).2, ∃ ki ti, ∃ km : ℕ × ℕ, ∃ tm,
      (w.kinematics[ki]?).map masksOf = some km ∧
      (w.triggers[ti]?).map (fun t => t.mask) = some tm ∧
      e = Event.triggerFired ki ti ∧
      km.1 &&& tm ≠ 0 ∧ km.2 &&& maskAll ≠ 0 := by
  intro e he
  unfold trigPhase at he
  dsimp only at he
  obtain ⟨new, hev, hmem⟩ := trigOuterFold_events K
    (List.range w.kinematics.length) (w.kinematics, w.triggers, [])
  rw [hev] at he
  simp only [List.nil_append] at he
  obtain ⟨ki, _, ti, km, tm, hkm, htm, hform, hcond⟩ := hmem e he
  exact ⟨ki, ti, km, tm, hkm, htm, hform, hcond⟩

/-! #### Update-level invariants -/

theorem update_statics {n : ℕ} {B T : Type} (K : Kernel n) (w : World n B T)
    (dt : ℚ) : (update K w dt).1.statics = w.statics := rfl

theorem update_masks {n : ℕ} {B T : Type} (K : Kernel n) (w : World n B T)
    (dt : ℚ) (i : ℕ) :
    ((update K w dt).1.kinematics[i]?).map masksOf =
      (w.kinematics[i]?).map masksOf := by
  unfold update
  dsimp only
  rw [trigPhase_getElem_map K masksOf masksOf_applyKMut]
  rw [resolvePhase_getElem]
  rw [Option.map_map]
  have hres : (masksOf ∘
      KinematicBody.apply_contacts dt ((kkPhase K dt (ksPhase K dt w).1).1.epsilon) :
      KinematicBody n B → ℕ × ℕ) = masksOf := by
    funext k
    exact masksOf_apply_contacts _ _ k
  rw [hres]
  rw [kkPhase_getElem_map K dt masksOf masksOf_add_contact]
  rw [ksPhase_getElem, Option.map_map]
  have hks : (masksOf ∘ fun k => (ksBody K dt w.statics i k).1) = masksOf := by
    funext k
    have h1 := masksOf_strip (ksBody_fst_strip K dt w.statics i k)
    have h2 : masksOf (KinematicBody.pre_update dt k) = masksOf k :=
      masksOf_pre_update dt k
    exact h1.trans h2
  rw [hks]

theorem update_trig_mask {n : ℕ} {B T : Type} (K : Kernel n) (w : World n B T)
    (dt : ℚ) (tj : ℕ) :
    ((update K w dt).1.triggers[tj]?).map (fun t => t.mask) =
      (w.triggers[tj]?).map (fun t => t.mask) := by
  unfold update
  dsimp only
  rw [trigPhase_trig_getElem_map K (fun t => t.mask) (fun _ _ => rfl)]
  rw [resolvePhase_triggers, kkPhase_triggers, ksPhase_triggers]

/-- Claim C3, counterexample: a world whose only kinematic body is at
rest with next isometry not equal to its isometry (as any tick with
nonzero velocity leaves behind); update commits the next isometry in its
own first phase, so the body's isometry after the call differs from its
value before the call. -/
theorem c3_isometry_changed_by_update :
    ((update K0 wC3 1).1.kinematics[0]?).map (fun k => k.isometry.pos 0) = some 1 ∧
    (wC3.kinematics[0]?).map (fun k => k.isometry.pos 0) = some 0 ∧
    (1 : ℚ) ≠ 0 := by
  refine ⟨?_, by with_unfolding_all rfl, by norm_num⟩
  with_unfolding_all rfl

/-- Claim C3 (amended): during update(delta_time) the only write to a
kinematic body's isometry is the phase-one commit isometry to
next_isometry; after the call every kinematic body's isometry equals the
value its next_isometry had before the call (the resolution of the
previous tick), at every index. -/
theorem c3_isometry_commit {n : ℕ} {B T : Type} (K : Kernel n)
    (w : World n B T) (dt : ℚ) (i : ℕ) :
    ((update K w dt).1.kinematics[i]?).map KinematicBody.isometry =
      (w.kinematics[i]?).map KinematicBody.next_isometry := by
  unfold update
  dsimp only
  rw [trigPhase_getElem_map K KinematicBody.isometry (fun _ _ => rfl)]
  rw [resolvePhase_getElem, Option.map_map]
  have hres : (KinematicBody.isometry ∘
      KinematicBody.apply_contacts dt ((kkPhase K dt (ksPhase K dt w).1).1.epsilon) :
      KinematicBody n B → Iso n) = KinematicBody.isometry := by
    funext k
    rfl
  rw [hres]
  rw [kkPhase_getElem_map K dt KinematicBody.isometry (fun _ _ _ _ => rfl)]
  rw [ksPhase_getElem, Option.map_map]
  have hks : (KinematicBody.isometry ∘ fun k => (ksBody K dt w.statics i k).1 :
      KinematicBody n B → Iso n) = KinematicBody.next_isometry := by
    funext k
    have h := congrArg KinematicBody.isometry (ksBody_fst_strip K dt w.statics i k)
    simp only [KinematicBody.strip] at h
    exact h
  rw [hks]

/-! #### Claim C5: mask gating -/

theorem ksPhase_masks {n : ℕ} {B T : Type} (K : Kernel n) (dt : ℚ)
    (w : World n B T) (i : ℕ) :
    ((ksPhase K dt w).1.kinematics[i]?).map masksOf =
      (w.kinematics[i]?).map masksOf := by
  rw [ksPhase_getElem, Option.map_map]
  have hks : (masksOf ∘ fun k => (ksBody K dt w.statics i k).1 :
      KinematicBody n B → ℕ × ℕ) = masksOf := by
    funext k
    exact (masksOf_strip (ksBody_fst_strip K dt w.statics i k)).trans
      (masksOf_pre_update dt k)
  rw [hks]

theorem resolvePhase_masks {n : ℕ} {B T : Type} (dt : ℚ) (w : World n B T)
    (i : ℕ) :
    ((resolvePhase dt w).kinematics[i]?).map masksOf =
      (w.kinematics[i]?).map masksOf := by
  rw [resolvePhase_getElem, Option.map_map]
  have h : (masksOf ∘ KinematicBody.apply_contacts dt w.epsilon :
      KinematicBody n B → ℕ × ℕ) = masksOf := by
    funext k
    exact masksOf_apply_contacts dt w.epsilon k
  rw [h]

theorem update_no_kk_contact {n : ℕ} {B T : Type} (K : Kernel n)
    (w : World n B T) (dt : ℚ) (i j : ℕ) (m1 m2 : ℕ × ℕ)
    (hm1 : (w.kinematics[i]?).map masksOf = some m1)
    (hm2 : (w.kinematics[j]?).map masksOf = some m2)
    (h1 : m1.1 &&& m2.2 = 0) (h2 : m1.2 &&& m2.1 = 0) :
    Event.contactWithKinematic i j ∉ (update K w dt).2 := by
  intro he
  unfold update at he
  dsimp only at he
  rcases List.mem_append.mp he with he' | he4
  · rcases List.mem_append.mp he' with he1 | he2
    · obtain ⟨_, _, _, _, _, _, hform, _⟩ := ksPhase_events K dt w _ he1
      exact Event.noConfusion hform
    · obtain ⟨p, _, mp1, mp2, hmp1, hmp2, hform, hc1, hc2⟩ :=
        kkPhase_events K dt (ksPhase K dt w).1 _ he2
      rw [ksPhase_masks] at hmp1 hmp2
      rcases hform with hform | hform
      · obtain ⟨rfl, rfl⟩ : p.1 = i ∧ p.2 = j := by
          constructor <;> cases hform <;> rfl
        rw [hm1] at hmp1
        rw [hm2] at hmp2
        cases hmp1
        cases hmp2
        exact hc1 h1
      · obtain ⟨rfl, rfl⟩ : p.2 = i ∧ p.1 = j := by
          constructor <;> cases hform <;> rfl
        rw [hm1] at hmp2
        rw [hm2] at hmp1
        cases hmp1
        cases hmp2
        rw [Nat.land_comm] at hc2
        exact hc2 h1
  · obtain ⟨_, _, _, _, _, _, hform, _⟩ :=
      trigPhase_events K _ _ he4
    exact Event.noConfusion hform

theorem update_no_ks_contact {n : ℕ} {B T : Type} (K : Kernel n)
    (w : World n B T) (dt : ℚ) (i si : ℕ) (m1 : ℕ × ℕ) (st : StaticBody n B)
    (hm1 : (w.kinematics[i]?).map masksOf = some m1)
    (hst : w.statics[si]? = some st)
    (h2 : m1.2 &&& st.layer = 0) :
    Event.contactWithStatic i si ∉ (update K w dt).2 := by
  intro he
  unfold update at he
  dsimp only at he
  rcases List.mem_append.mp he with he' | he4
  · rcases List.mem_append.mp he' with he1 | he2
    · obtain ⟨i', k, hk, si', st', hst', hform, hov⟩ := ksPhase_events K dt w _ he1
      obtain ⟨rfl, rfl⟩ : i' = i ∧ si' = si := by
        constructor <;> cases hform <;> rfl
      rw [hst] at hst'
      cases hst'
      rw [hk] at hm1
      have hm1' : masksOf k = m1 := Option.some.inj hm1
      subst hm1'
      exact hov.1.2 h2
    · obtain ⟨p, _, mp1, mp2, hmp1, hmp2, hform, hc1, hc2⟩ :=
        kkPhase_events K dt (ksPhase K dt w).1 _ he2
      rcases hform with hform | hform <;> exact Event.noConfusion hform
  · obtain ⟨_, _, _, _, _, _, hform, _⟩ := trigPhase_events K _ _ he4
    exact Event.noConfusion hform

theorem update_no_trigger {n : ℕ} {B T : Type} (K : Kernel n)
    (w : World n B T) (dt : ℚ) (i ti : ℕ) (m1 : ℕ × ℕ) (tm : ℕ)
    (hm1 : (w.kinematics[i]?).map masksOf = some m1)
    (htm : (w.triggers[ti]?).map (fun t => t.mask) = some tm)
    (h1 : m1.1 &&& tm = 0) :
    Event.triggerFired i ti ∉ (update K w dt).2 := by
  intro he
  unfold update at he
  dsimp only at he
  rcases List.mem_append.mp he with he' | he4
  · rcases List.mem_append.mp he' with he1 | he2
    · obtain ⟨_, _, _, _, _, _, hform, _⟩ := ksPhase_events K dt w _ he1
      exact Event.noConfusion hform
    · obtain ⟨p, _, mp1, mp2, hmp1, hmp2, hform, hc1, hc2⟩ :=
        kkPhase_events K dt (ksPhase K dt w).1 _ he2
      rcases hform with hform | hform <;> exact Event.noConfusion hform
  · obtain ⟨ki, ti', km, tm', hkm, htm', hform, hc1, hc2⟩ :=
      trigPhase_events K _ _ he4
    obtain ⟨rfl, rfl⟩ : ki = i ∧ ti' = ti := by
      constructor <;> cases hform <;> rfl
    rw [resolvePhase_masks, kkPhase_getElem_map K dt masksOf masksOf_add_contact,
      ksPhase_masks, hm1] at hkm
    cases hkm
    rw [resolvePhase_triggers, kkPhase_triggers, ksPhase_triggers, htm] at htm'
    cases htm'
    exact hc1 h1

/-- Splitting one tick off a run: the state threads through update and
the events accumulate. -/
theorem runTicks_cons {n : ℕ} {B T : Type} (K : Kernel n) (w : World n B T)
    (dt : ℚ) (ts : List ℚ) :
    runTicks K w (dt :: ts) =
      ((runTicks K (update K w dt).1 ts).1,
       (update K w dt).2 ++ (runTicks K (update K w dt).1 ts).2) := by
  have aux : ∀ (ts : List ℚ) (w0 : World n B T) (acc : List Event),
      ts.foldl (fun s dt' => ((update K s.1 dt').1, s.2 ++ (update K s.1 dt').2))
        (w0, acc) =
      ((ts.foldl (fun s dt' => ((update K s.1 dt').1, s.2 ++ (update K s.1 dt').2))
        (w0, [])).1,
       acc ++ (ts.foldl (fun s dt' => ((update K s.1 dt').1, s.2 ++ (update K s.1 dt').2))
        (w0, [])).2) := by
    intro ts
    induction ts with
    | nil => intro w0 acc; simp
    | cons dt' ts ih =>
      intro w0 acc
      rw [List.foldl_cons, List.foldl_cons]
      rw [ih (update K w0 dt').1 (acc ++ (update K w0 dt').2),
        ih (update K w0 dt').1 ([] ++ (update K w0 dt').2)]
      simp [List.append_assoc]
  unfold runTicks
  rw [List.foldl_cons]
  dsimp only
  rw [aux ts (update K w dt).1 ([] ++ (update K w dt).2)]
  simp

/-- Claim C5: for any two objects whose bitfields are mutually masked out
(each layer misses the other's mask, reading a static body's mask and a
trigger area's layer as all ones, as the Object trait does), no run of
any number of ticks ever records a contact between them on either body
nor fires a trigger callback for the pair. -/
theorem c5_mask_gating {n : ℕ} {B T : Type} (K : Kernel n) (w : World n B T)
    (ticks : List ℚ) :
    (∀ i j (m1 m2 : ℕ × ℕ), (w.kinematics[i]?).map masksOf = some m1 →
       (w.kinematics[j]?).map masksOf = some m2 →
       m1.1 &&& m2.2 = 0 → m1.2 &&& m2.1 = 0 →
       Event.contactWithKinematic i j ∉ (runTicks K w ticks).2 ∧
       Event.contactWithKinematic j i ∉ (runTicks K w ticks).2) ∧
    (∀ i si (m1 : ℕ × ℕ) (st : StaticBody n B),
       (w.kinematics[i]?).map masksOf = some m1 →
       w.statics[si]? = some st →
       m1.1 &&& maskAll = 0 → m1.2 &&& st.layer = 0 →
       Event.contactWithStatic i si ∉ (runTicks K w ticks).2) ∧
    (∀ i ti (m1 : ℕ × ℕ) (tm : ℕ),
       (w.kinematics[i]?).map masksOf = some m1 →
       (w.triggers[ti]?).map (fun t => t.mask) = some tm →
       m1.1 &&& tm = 0 → m1.2 &&& maskAll = 0 →
       Event.triggerFired i ti ∉ (runTicks K w ticks).2) := by
  induction ticks generalizing w with
  | nil =>
    refine ⟨fun _ _ _ _ _ _ _ _ => ⟨?_, ?_⟩, fun _ _ _ _ _ _ _ _ => ?_,
      fun _ _ _ _ _ _ _ _ => ?_⟩ <;> simp [runTicks]
  | cons dt ts ih =>
    obtain ⟨ihkk, ihks, iht⟩ := ih (update K w dt).1
    refine ⟨fun i j m1 m2 hm1 hm2 h1 h2 => ⟨?_, ?_⟩,
      fun i si m1 st hm1 hst h1 h2 => ?_,
      fun i ti m1 tm hm1 htm h1 h2 => ?_⟩ <;>
      rw [runTicks_cons] <;>
      dsimp only <;>
      rw [List.mem_append, not_or]
    · refine ⟨update_no_kk_contact K w dt i j m1 m2 hm1 hm2 h1 h2, ?_⟩
      refine (ihkk i j m1 m2 ?_ ?_ h1 h2).1
      · rw [update_masks]; exact hm1
      · rw [update_masks]; exact hm2
    · refine ⟨?_, ?_⟩
      · apply update_no_kk_contact K w dt j i m2 m1 hm2 hm1
        · rw [Nat.land_comm]; exact h2
        · rw [Nat.land_comm]; exact h1
      · refine (ihkk i j m1 m2 ?_ ?_ h1 h2).2
        · rw [update_masks]; exact hm1
        · rw [update_masks]; exact hm2
    · refine ⟨update_no_ks_contact K w dt i si m1 st hm1 hst h2, ?_⟩
      refine ihks i si m1 st ?_ ?_ h1 h2
      · rw [update_masks]; exact hm1
      · rw [update_statics]; exact hst
    · refine ⟨update_no_trigger K w dt i ti m1 tm hm1 htm h1, ?_⟩
      refine iht i ti m1 tm ?_ ?_ h1 h2
      · rw [update_masks]; exact hm1
      · rw [update_trig_mask]; exact htm

/-! #### Claim C7: trigger callback counting -/

theorem applyKMut_isometry {n : ℕ} {B : Type} (k : KinematicBody n B)
    (m : KMut n B) : (k.applyKMut m).isometry = k.isometry := rfl

theorem applyKMut_shape {n : ℕ} {B : Type} (k : KinematicBody n B)
    (m : KMut n B) : (k.applyKMut m).shape = k.shape := rfl

theorem innerFire_none {n : ℕ} {B T : Type} {K : Kernel n} {a : Aabb n} {t0 : ℕ}
    {s : KinematicBody n B × List (TriggerArea n T B) × List Event}
    (h : s.2.1[t0]? = none) : ¬ innerFire K a t0 s := by
  rintro ⟨t, ht, _⟩
  rw [h] at ht
  exact Option.noConfusion ht

theorem innerFire_some_iff {n : ℕ} {B T : Type} {K : Kernel n} {a : Aabb n}
    {t0 : ℕ} {s : KinematicBody n B × List (TriggerArea n T B) × List Event}
    {t : TriggerArea n T B} (h : s.2.1[t0]? = some t) :
    innerFire K a t0 s ↔ (a.overlaps (trigAabb K t) ∧
      K.intersectionTest s.1.isometry s.1.shape t.isometry t.shape = true) := by
  constructor
  · rintro ⟨t', ht', h1, h2⟩
    rw [h] at ht'
    cases ht'
    exact ⟨h1, h2⟩
  · rintro ⟨h1, h2⟩
    exact ⟨t, h, h1, h2⟩

theorem trigInner_count_self {n : ℕ} {B T : Type} (K : Kernel n) (ki : ℕ)
    (a : Aabb n) (t0 : ℕ)
    (s : KinematicBody n B × List (TriggerArea n T B) × List Event) :
    ((trigInner K ki a s t0).2.2).count (Event.triggerFired ki t0) =
      (s.2.2).count (Event.triggerFired ki t0) +
      (if innerFire K a t0 s then 1 else 0) := by
  unfold trigInner
  cases h : s.2.1[t0]? with
  | none =>
    rw [if_neg (innerFire_none h)]
    rfl
  | some t =>
    dsimp only
    by_cases hov : a.overlaps (trigAabb K t)
    · rw [if_pos hov]
      by_cases htest :
          K.intersectionTest s.1.isometry s.1.shape t.isometry t.shape = true
      · rw [if_pos htest, if_pos ((innerFire_some_iff h).mpr ⟨hov, htest⟩)]
        dsimp only
        rw [List.count_append]
        simp
      · rw [if_neg htest,
          if_neg (fun hf => htest ((innerFire_some_iff h).mp hf).2)]
        rfl
    · rw [if_neg hov, if_neg (fun hf => hov ((innerFire_some_iff h).mp hf).1)]
      rfl

theorem trigInner_count_ne {n : ℕ} {B T : Type} (K : Kernel n) (ki : ℕ)
    (a : Aabb n) {ti t0 : ℕ} (hti : ti ≠ t0)
    (s : KinematicBody n B × List (TriggerArea n T B) × List Event) :
    ((trigInner K ki a s ti).2.2).count (Event.triggerFired ki t0) =
      (s.2.2).count (Event.triggerFired ki t0) := by
  unfold trigInner
  cases h : s.2.1[ti]? with
  | none => rfl
  | some t =>
    dsimp only
    split_ifs with hov htest
    · rw [List.count_append]
      have : (Event.triggerFired ki t0) ∉ [Event.triggerFired ki ti] := by
        simp [Ne.symm hti]
      rw [List.count_eq_zero.mpr this]
      rfl
    · rfl
    · rfl

theorem innerFire_step_ne {n : ℕ} {B T : Type} (K : Kernel n) (ki : ℕ)
    (a : Aabb n) {ti t0 : ℕ} (hti : ti ≠ t0)
    (s : KinematicBody n B × List (TriggerArea n T B) × List Event) :
    innerFire K a t0 (trigInner K ki a s ti) ↔ innerFire K a t0 s := by
  unfold trigInner
  cases h : s.2.1[ti]? with
  | none => exact Iff.rfl
  | some t =>
    dsimp only
    split_ifs with hov htest
    · unfold innerFire
      simp only [List.getElem?_set_ne hti, applyKMut_isometry, applyKMut_shape]
    · exact Iff.rfl
    · exact Iff.rfl

theorem trigInnerFold_count {n : ℕ} {B T : Type} (K : Kernel n) (ki : ℕ)
    (a : Aabb n) (t0 : ℕ) :
    ∀ (tis : List ℕ)
    (s : KinematicBody n B × List (TriggerArea n T B) × List Event),
    tis.Nodup →
    ((tis.foldl (trigInner K ki a) s).2.2).count (Event.triggerFired ki t0) =
      (s.2.2).count (Event.triggerFired ki t0) +
      (if t0 ∈ tis ∧ innerFire K a t0 s then 1 else 0)
  | [], s, _ => by simp
  | ti :: tis, s, hnd => by
    have hnd1 : ti ∉ tis := (List.nodup_cons.mp hnd).1
    have hnd2 : tis.Nodup := (List.nodup_cons.mp hnd).2
    rw [List.foldl_cons,
      trigInnerFold_count K ki a t0 tis (trigInner K ki a s ti) hnd2]
    by_cases hti : ti = t0
    · subst hti
      rw [if_neg (fun hc => hnd1 hc.1)]
      rw [trigInner_count_self K ki a ti s]
      rw [if_congr (and_iff_right (List.mem_cons_self ti tis)) rfl rfl]
      rw [Nat.add_zero]
    · rw [trigInner_count_ne K ki a hti s]
      congr 1
      apply if_congr ?_ rfl rfl
      apply and_congr ?_ (innerFire_step_ne K ki a hti s)
      exact ⟨fun h => List.mem_cons.mpr (Or.inr h),
        fun h => (List.mem_cons.mp h).resolve_left (Ne.symm hti)⟩

theorem outerFire_step_ne {n : ℕ} {B T : Type} (K : Kernel n) {i0 t0 ki : ℕ}
    (hki : ki ≠ i0)
    (s : List (KinematicBody n B) × List (TriggerArea n T B) × List Event) :
    outerFire K i0 t0 (trigOuter K s ki) ↔ outerFire K i0 t0 s := by
  have hkin : (trigOuter K s ki).1[i0]? = s.1[i0]? := by
    unfold trigOuter
    cases h : s.1[ki]? with
    | none => rfl
    | some k => exact List.getElem?_set_ne hki
  have htrig := trigOuter_trig_getElem_map K trigProj trigProj_set_payload s ki t0
  unfold outerFire
  rw [hkin]
  cases ho : s.2.1[t0]? with
  | none =>
    rw [ho] at htrig
    have hnone : (trigOuter K s ki).2.1[t0]? = none := by
      cases hx : (trigOuter K s ki).2.1[t0]? with
      | none => rfl
      | some t' =>
        rw [hx] at htrig
        exact Option.noConfusion htrig
    rw [hnone]
  | some t =>
    rw [ho] at htrig
    obtain ⟨t', ht', hproj⟩ := Option.map_eq_some'.mp htrig
    obtain ⟨haabb, hiso, hshape⟩ := fireInputs_of_trigProj K hproj
    rw [ht']
    constructor
    · rintro ⟨k, t'', hk, htt, hov, htest⟩
      cases htt
      refine ⟨k, t, hk, rfl, ?_, ?_⟩
      · rw [← haabb]; exact hov
      · rw [← hiso, ← hshape]; exact htest
    · rintro ⟨k, t'', hk, htt, hov, htest⟩
      cases htt
      refine ⟨k, t', hk, rfl, ?_, ?_⟩
      · rw [haabb]; exact hov
      · rw [hiso, hshape]; exact htest

theorem trigOuter_count_ne {n : ℕ} {B T : Type} (K : Kernel n) {i0 t0 ki : ℕ}
    (hki : ki ≠ i0)
    (s : List (KinematicBody n B) × List (TriggerArea n T B) × List Event) :
    ((trigOuter K s ki).2.2).count (Event.triggerFired i0 t0) =
      (s.2.2).count (Event.triggerFired i0 t0) := by
  obtain ⟨new, hev, hmem⟩ := trigOuter_events K s ki
  rw [hev, List.count_append]
  have : (Event.triggerFired i0 t0) ∉ new := by
    intro hin
    obtain ⟨ti, _, _, _, _, hform, _⟩ := hmem _ hin
    have : ki = i0 := by cases hform; rfl
    exact hki this
  rw [List.count_eq_zero.mpr this]
  rfl

theorem trigOuter_count_self {n : ℕ} {B T : Type} (K : Kernel n) (i0 t0 : ℕ)
    (s : List (KinematicBody n B) × List (TriggerArea n T B) × List Event) :
    ((trigOuter K s i0).2.2).count (Event.triggerFired i0 t0) =
      (s.2.2).count (Event.triggerFired i0 t0) +
      (if outerFire K i0 t0 s then 1 else 0) := by
  unfold trigOuter
  cases h : s.1[i0]? with
  | none =>
    rw [if_neg (fun ⟨k, t, hk, _⟩ => by rw [h] at hk; exact Option.noConfusion hk)]
    rfl
  | some k =>
    dsimp only
    rw [trigInnerFold_count K i0 (kinAabb K k) t0 (List.range s.2.1.length)
      (k, s.2.1, s.2.2) (List.nodup_range _)]
    congr 1
    apply if_congr ?_ rfl rfl
    constructor
    · rintro ⟨_, t, ht, hov, htest⟩
      exact ⟨k, t, h, ht, hov, htest⟩
    · rintro ⟨k', t, hk', ht, hov, htest⟩
      rw [h] at hk'
      cases hk'
      exact ⟨List.mem_range.mpr (List.getElem?_eq_some_iff.mp ht).1,
        t, ht, hov, htest⟩

theorem trigOuterFold_count {n : ℕ} {B T : Type} (K : Kernel n) (i0 t0 : ℕ) :
    ∀ (kis : List ℕ)
    (s : List (KinematicBody n B) × List (TriggerArea n T B) × List Event),
    kis.Nodup →
    ((kis.foldl (trigOuter K) s).2.2).count (Event.triggerFired i0 t0) =
      (s.2.2).count (Event.triggerFired i0 t0) +
      (if i0 ∈ kis ∧ outerFire K i0 t0 s then 1 else 0)
  | [], s, _ => by simp
  | ki :: kis, s, hnd => by
    have hnd1 : ki ∉ kis := (List.nodup_cons.mp hnd).1
    have hnd2 : kis.Nodup := (List.nodup_cons.mp hnd).2
    rw [List.foldl_cons,
      trigOuterFold_count K i0 t0 kis (trigOuter K s ki) hnd2]
    by_cases hki : ki = i0
    · subst hki
      rw [if_neg (fun hc => hnd1 hc.1)]
      rw [trigOuter_count_self K ki t0 s]
      rw [if_congr (and_iff_right (List.mem_cons_self ki kis)) rfl rfl]
      rw [Nat.add_zero]
    · rw [trigOuter_count_ne K hki s]
      congr 1
      apply if_congr ?_ rfl rfl
      apply and_congr ?_ (outerFire_step_ne K hki s)
      exact ⟨fun h => List.mem_cons.mpr (Or.inr h),
        fun h => (List.mem_cons.mp h).resolve_left (Ne.symm hki)⟩

theorem trigPhase_count {n : ℕ} {B T : Type} (K : Kernel n) (w : World n B T)
    (i0 t0 : ℕ) (k3 : KinematicBody n B) (t3 : TriggerArea n T B)
    (hk : w.kinematics[i0]? = some k3) (ht : w.triggers[t0]? = some t3) :
    ((trigPhase K w).2).count (Event.triggerFired i0 t0) =
      if (kinAabb K k3).overlaps (trigAabb K t3) ∧
         K.intersectionTest k3.isometry k3.shape t3.isometry t3.shape = true
      then 1 else 0 := by
  unfold trigPhase
  dsimp only
  rw [trigOuterFold_count K i0 t0 (List.range w.kinematics.length)
    (w.kinematics, w.triggers, []) (List.nodup_range _)]
  simp only [List.count_nil, Nat.zero_add]
  apply if_congr ?_ rfl rfl
  constructor
  · rintro ⟨_, k', t', hk', ht', hov, htest⟩
    rw [hk] at hk'
    rw [ht] at ht'
    cases hk'
    cases ht'
    exact ⟨hov, htest⟩
  · rintro ⟨hov, htest⟩
    exact ⟨List.mem_range.mpr (List.getElem?_eq_some_iff.mp hk).1,
      k3, t3, hk, ht, hov, htest⟩

theorem ksPhase_count_trigger {n : ℕ} {B T : Type} (K : Kernel n) (dt : ℚ)
    (w : World n B T) (i0 t0 : ℕ) :
    ((ksPhase K dt w).2).count (Event.triggerFired i0 t0) = 0 := by
  rw [List.count_eq_zero]
  intro he
  obtain ⟨_, _, _, _, _, _, hform, _⟩ := ksPhase_events K dt w _ he
  exact Event.noConfusion hform

theorem kkPhase_count_trigger {n : ℕ} {B T : Type} (K : Kernel n) (dt : ℚ)
    (w : World n B T) (i0 t0 : ℕ) :
    ((kkPhase K dt w).2).count (Event.triggerFired i0 t0) = 0 := by
  rw [List.count_eq_zero]
  intro he
  obtain ⟨_, _, _, _, _, _, hform, _⟩ := kkPhase_events K dt w _ he
  rcases hform with hform | hform <;> exact Event.noConfusion hform

/-- Claim C7: within a single update, for a fixed kinematic body (index
i0, value k3 after the resolution phase) and a fixed trigger area (index
t0, value t3), the callback fires exactly once when the body's box
overlaps the trigger's box under the mask semantics and
intersection_test answers true, and zero times otherwise — in
particular at most once per tick. -/
theorem c7_trigger_once {n : ℕ} {B T : Type} (K : Kernel n) (w : World n B T)
    (dt : ℚ) (i0 t0 : ℕ) (k3 : KinematicBody n B) (t3 : TriggerArea n T B)
    (hk : (resolvePhase dt (kkPhase K dt (ksPhase K dt w).1).1).kinematics[i0]? =
      some k3)
    (ht : (resolvePhase dt (kkPhase K dt (ksPhase K dt w).1).1).triggers[t0]? =
      some t3) :
    ((update K w dt).2).count (Event.triggerFired i0 t0) =
      if (kinAabb K k3).overlaps (trigAabb K t3) ∧
         K.intersectionTest k3.isometry k3.shape t3.isometry t3.shape = true
      then 1 else 0 := by
  unfold update
  dsimp only
  rw [List.count_append, List.count_append]
  rw [ksPhase_count_trigger, kkPhase_count_trigger,
    trigPhase_count K _ i0 t0 k3 t3 hk ht]
  rw [Nat.zero_add]

/-! #### Claim C8: a resting, isolated body is untouched -/

theorem scale_zero {n : ℕ} (dt : ℚ) : scale (0 : Vec n) dt = 0 := by
  funext i
  simp [scale]

theorem appendTranslation_zero {n : ℕ} (iso : Iso n) :
    iso.appendTranslation 0 = iso := by
  cases iso with
  | mk pos rot => simp [Iso.appendTranslation]

theorem apply_contacts_of_contacts_nil {n : ℕ} {B : Type} (dt eps : ℚ)
    (k : KinematicBody n B) (h : k.contacts = []) :
    KinematicBody.apply_contacts dt eps k = k := by
  cases k with
  | mk sh iso p l m wt b v ni cts =>
    dsimp only at h
    subst h
    unfold KinematicBody.apply_contacts
    dsimp only
    rw [show sortContacts eps ([] : List (Contact n B)) = [] from rfl]
    simp only [List.foldl_nil]
    rw [scale_zero, appendTranslation_zero, ite_self]

theorem ksFold_skip {n : ℕ} {B : Type} (K : Kernel n) (dt : ℚ) (a : Aabb n)
    (i : ℕ) : ∀ (l : List (ℕ × StaticBody n B))
    (s : KinematicBody n B × List Event),
    (∀ p ∈ l, ¬ a.overlaps (staticAabb K p.2)) →
    l.foldl (ksStep K dt a i) s = s
  | [], _, _ => rfl
  | p :: l, s, h => by
    rw [List.foldl_cons]
    have hstep : ksStep K dt a i s p = s := by
      unfold ksStep
      rw [if_neg (h p (List.mem_cons_self _ _))]
    rw [hstep]
    exact ksFold_skip K dt a i l s (fun q hq => h q (List.mem_cons_of_mem _ hq))

theorem ksBody_skip {n : ℕ} {B : Type} (K : Kernel n) (dt : ℚ)
    (statics : List (StaticBody n B)) (i : ℕ) (k : KinematicBody n B)
    (h : ∀ (si : ℕ) st, statics[si]? = some st →
      ¬ (kinAabb K (KinematicBody.pre_update dt k)).overlaps (staticAabb K st)) :
    ksBody K dt statics i k = (KinematicBody.pre_update dt k, []) := by
  unfold ksBody
  dsimp only
  apply ksFold_skip
  intro p hp
  exact h p.1 p.2 (List.mem_enum_iff_getElem?.mp hp)

theorem kkPairs_lt (m : ℕ) : ∀ p ∈ kkPairs m, p.1 < p.2 := by
  intro p hp
  unfold kkPairs at hp
  rw [List.mem_bind] at hp
  obtain ⟨a, _, hp⟩ := hp
  rw [List.mem_map] at hp
  obtain ⟨b, hb, rfl⟩ := hp
  exact of_decide_eq_true (List.mem_filter.mp hb).2

theorem kkStep_getElem_skip {n : ℕ} {B : Type} (K : Kernel n) (dt : ℚ)
    (s : List (KinematicBody n B) × List Event) (p : ℕ × ℕ) (i : ℕ)
    (hne : p.1 ≠ p.2)
    (hno : ∀ j kj ki', j ≠ i → s.1[j]? = some kj → s.1[i]? = some ki' →
      ¬ (kinAabb K ki').overlaps (kinAabb K kj) ∧
      ¬ (kinAabb K kj).overlaps (kinAabb K ki')) :
    (kkStep K dt s p).1[i]? = s.1[i]? := by
  unfold kkStep
  cases h1 : s.1[p.1]? with
  | none => rfl
  | some k1 =>
    cases h2 : s.1[p.2]? with
    | none => rfl
    | some k2 =>
      dsimp only
      by_cases hov : (kinAabb K k1).overlaps (kinAabb K k2)
      · rw [if_pos hov]
        by_cases hp1 : p.1 = i
        · exfalso
          subst hp1
          exact (hno p.2 k2 k1 (fun he => hne he.symm) h2 h1).1 hov
        · by_cases hp2 : p.2 = i
          · exfalso
            subst hp2
            exact (hno p.1 k1 k2 hp1 h1 h2).2 hov
          · cases hc : K.castShapes k1.isometry k1.velocity k1.shape
              k2.isometry k2.velocity k2.shape dt with
            | none => rfl
            | some hit =>
              dsimp only
              rw [List.getElem?_set_ne hp2, List.getElem?_set_ne hp1]
      · rw [if_neg hov]

theorem kkFold_getElem_skip {n : ℕ} {B : Type} (K : Kernel n) (dt : ℚ) :
    ∀ (pairs : List (ℕ × ℕ)) (s : List (KinematicBody n B) × List Event) (i : ℕ),
    (∀ p ∈ pairs, p.1 ≠ p.2) →
    (∀ j kj ki', j ≠ i → s.1[j]? = some kj → s.1[i]? = some ki' →
      ¬ (kinAabb K ki').overlaps (kinAabb K kj) ∧
      ¬ (kinAabb K kj).overlaps (kinAabb K ki')) →
    ((pairs.foldl (kkStep K dt) s).1)[i]? = s.1[i]?
  | [], _, _, _, _ => rfl
  | p :: pairs, s, i, hne, hno => by
    rw [List.foldl_cons]
    have hstep := kkStep_getElem_skip K dt s p i
      (hne p (List.mem_cons_self _ _)) hno
    have hno' : ∀ j kj ki', j ≠ i → (kkStep K dt s p).1[j]? = some kj →
        (kkStep K dt s p).1[i]? = some ki' →
        ¬ (kinAabb K ki').overlaps (kinAabb K kj) ∧
        ¬ (kinAabb K kj).overlaps (kinAabb K ki') := by
      intro j kj ki' hj hkj hki'
      have hmapj := kkStep_getElem_map K dt (kinAabb K)
        (fun hit ow pp kk => kinAabb_add_contact K hit ow pp kk) s p j
      have hmapi := kkStep_getElem_map K dt (kinAabb K)
        (fun hit ow pp kk => kinAabb_add_contact K hit ow pp kk) s p i
      rw [hkj] at hmapj
      rw [hki'] at hmapi
      obtain ⟨kj0, hkj0, hkeq⟩ := Option.map_eq_some'.mp hmapj.symm
      obtain ⟨ki0, hki0, hieq⟩ := Option.map_eq_some'.mp hmapi.symm
      obtain ⟨hA, hB⟩ := hno j kj0 ki0 hj hkj0 hki0
      constructor
      · rw [← hieq, ← hkeq]
        exact hA
      · rw [← hieq, ← hkeq]
        exact hB
    rw [kkFold_getElem_skip K dt pairs (kkStep K dt s p) i
      (fun q hq => hne q (List.mem_cons_of_mem _ hq)) hno']
    exact hstep

theorem trigInnerFold_skip {n : ℕ} {B T : Type} (K : Kernel n) (ki : ℕ)
    (a : Aabb n) : ∀ (tis : List ℕ)
    (s : KinematicBody n B × List (TriggerArea n T B) × List Event),
    (∀ (ti : ℕ) t, s.2.1[ti]? = some t → ¬ a.overlaps (trigAabb K t)) →
    tis.foldl (trigInner K ki a) s = s
  | [], _, _ => rfl
  | ti :: tis, s, h => by
    rw [List.foldl_cons]
    have hstep : trigInner K ki a s ti = s := by
      unfold trigInner
      cases htt : s.2.1[ti]? with
      | none => rfl
      | some t =>
        dsimp only
        rw [if_neg (h ti t htt)]
    rw [hstep]
    exact trigInnerFold_skip K ki a tis s h

theorem trigOuterFold_getElem_skip {n : ℕ} {B T : Type} (K : Kernel n) :
    ∀ (kis : List ℕ)
    (s : List (KinematicBody n B) × List (TriggerArea n T B) × List Event) (i : ℕ),
    (∀ k, s.1[i]? = some k → ∀ (ti : ℕ) t, s.2.1[ti]? = some t →
      ¬ (kinAabb K k).overlaps (trigAabb K t)) →
    ((kis.foldl (trigOuter K) s).1)[i]? = s.1[i]?
  | [], _, _, _ => rfl
  | ki :: kis, s, i, h => by
    rw [List.foldl_cons]
    have hstep_i : (trigOuter K s ki).1[i]? = s.1[i]? := by
      unfold trigOuter
      cases hk : s.1[ki]? with
      | none => rfl
      | some k =>
        dsimp only
        by_cases hki : ki = i
        · subst hki
          have hinner : (List.range s.2.1.length).foldl
              (trigInner K ki (kinAabb K k)) (k, s.2.1, s.2.2) = (k, s.2.1, s.2.2) :=
            trigInnerFold_skip K ki (kinAabb K k) _ _
              (fun ti t htt => h k hk ti t htt)
          rw [hinner]
          have hl : ki < s.1.length := (List.getElem?_eq_some_iff.mp hk).1
          rw [List.getElem?_set_self hl]
          exact hk.symm
        · exact List.getElem?_set_ne hki
    have h' : ∀ k, (trigOuter K s ki).1[i]? = some k →
        ∀ (ti : ℕ) t, (trigOuter K s ki).2.1[ti]? = some t →
        ¬ (kinAabb K k).overlaps (trigAabb K t) := by
      intro k hk ti t htt
      have hmap := trigOuter_trig_getElem_map K trigProj trigProj_set_payload s ki ti
      rw [htt] at hmap
      obtain ⟨t0, ht0, hproj⟩ := Option.map_eq_some'.mp hmap.symm
      have haabb := (fireInputs_of_trigProj K hproj).1
      rw [← haabb]
      rw [hstep_i] at hk
      exact h k hk ti t0 ht0
    rw [trigOuterFold_getElem_skip K kis (trigOuter K s ki) i h']
    exact hstep_i

/-- Claim C8 (amended): a kinematic body with zero velocity whose next
isometry equals its isometry (the settled state every body is in unless
an earlier tick moved it and its result was never committed) and whose
swept box overlaps no static body, no other kinematic body and no
trigger area is left with its isometry, next isometry and velocity
unchanged by update (only its contact list is reset). -/
theorem c8_untouched_body {n : ℕ} {B T : Type} (K : Kernel n) (w : World n B T)
    (dt : ℚ) (i : ℕ) (k : KinematicBody n B)
    (hi : w.kinematics[i]? = some k)
    (hv : k.velocity = 0)
    (hni : k.next_isometry = k.isometry)
    (hs : ∀ (si : ℕ) st, w.statics[si]? = some st →
      ¬ (kinAabb K (KinematicBody.pre_update dt k)).overlaps (staticAabb K st))
    (hk2 : ∀ j kj, j ≠ i → w.kinematics[j]? = some kj →
      ¬ (kinAabb K (KinematicBody.pre_update dt k)).overlaps
        (kinAabb K (KinematicBody.pre_update dt kj)))
    (ht : ∀ (ti : ℕ) t, w.triggers[ti]? = some t →
      ¬ (kinAabb K (KinematicBody.pre_update dt k)).overlaps (trigAabb K t)) :
    ((update K w dt).1.kinematics[i]?).map
        (fun x => (x.isometry, x.next_isometry, x.velocity)) =
      some (k.isometry, k.next_isometry, k.velocity) := by
  have hpre : KinematicBody.pre_update dt k = { k with contacts := [] } := by
    unfold KinematicBody.pre_update
    dsimp only
    rw [hni, hv, scale_zero, appendTranslation_zero]
  have h1 : (ksPhase K dt w).1.kinematics[i]? = some { k with contacts := [] } := by
    rw [ksPhase_getElem, hi]
    exact congrArg some
      ((congrArg Prod.fst (ksBody_skip K dt w.statics i k hs)).trans hpre)
  have h2 : (kkPhase K dt (ksPhase K dt w).1).1.kinematics[i]? =
      some { k with contacts := [] } := by
    unfold kkPhase
    dsimp only
    rw [kkFold_getElem_skip K dt _ _ i
      (fun p hp => Nat.ne_of_lt (kkPairs_lt _ p hp)) ?_]
    · exact h1
    · intro j kj ki' hj hkj hki'
      rw [h1] at hki'
      cases hki'
      have hkj' := hkj
      rw [ksPhase_getElem] at hkj'
      cases hj0 : w.kinematics[j]? with
      | none =>
        rw [hj0] at hkj'
        exact Option.noConfusion hkj'
      | some kj0 =>
        rw [hj0] at hkj'
        have hkjeq : (ksBody K dt w.statics j kj0).1 = kj := Option.some.inj hkj'
        have haabb : kinAabb K kj = kinAabb K (KinematicBody.pre_update dt kj0) := by
          rw [← hkjeq]
          exact kinAabb_strip K (ksBody_fst_strip K dt w.statics j kj0)
        have hA : ¬ (kinAabb K (KinematicBody.pre_update dt k)).overlaps
            (kinAabb K kj) := by
          rw [haabb]
          exact hk2 j kj0 hj hj0
        constructor
        · rw [← hpre]
          exact hA
        · intro hov
          exact hA (by rw [hpre]; exact Aabb.overlaps_symm hov)
  have h3 : (resolvePhase dt (kkPhase K dt (ksPhase K dt w).1).1).kinematics[i]? =
      some { k with contacts := [] } := by
    rw [resolvePhase_getElem, h2]
    exact congrArg some (apply_contacts_of_contacts_nil _ _ _ rfl)
  have h4 : (trigPhase K (resolvePhase dt (kkPhase K dt (ksPhase K dt w).1).1)).1.kinematics[i]? =
      some { k with contacts := [] } := by
    unfold trigPhase
    dsimp only
    rw [trigOuterFold_getElem_skip K _ _ i ?_]
    · exact h3
    · intro k' hk' ti t htt
      rw [h3] at hk'
      cases hk'
      rw [← hpre]
      exact ht ti t htt
  unfold update
  dsimp only
  rw [h4]
  rfl

/-- Claim C8, counterexample: the resting body kC3 overlaps nothing (its
world has no statics, no triggers and no other kinematic body), yet
update moves its isometry from zero to one, because the phase-one commit
writes the uncommitted next isometry into it. -/
theorem c8_moved_counterexample :
    kC3.velocity = 0 ∧ wC3.statics = [] ∧ wC3.triggers = [] ∧
    wC3.kinematics.length = 1 ∧
    ((update K0 wC3 1).1.kinematics[0]?).map (fun x => x.isometry.pos 0) = some 1 ∧
    (wC3.kinematics[0]?).map (fun x => x.isometry.pos 0) = some 0 ∧
    (1 : ℚ) ≠ 0 := by
  refine ⟨rfl, rfl, rfl, rfl, ?_, by with_unfolding_all rfl, by norm_num⟩
  with_unfolding_all rfl

/-- Claim C8 witness: the settled body kC8 in an otherwise empty world is
untouched by update. -/
theorem c8_untouched_body_witness :
    kC8.velocity = 0 ∧ kC8.next_isometry = kC8.isometry ∧
    ((update K0 wC8 1).1.kinematics[0]?).map
        (fun x => (x.isometry, x.next_isometry, x.velocity)) =
      some (kC8.isometry, kC8.next_isometry, kC8.velocity) := by
  refine ⟨rfl, rfl, ?_⟩
  apply c8_untouched_body K0 wC8 1 0 kC8 rfl rfl rfl
  · intro si st hst
    simp [wC8] at hst
  · intro j kj hj hkj
    exfalso
    rcases j with _ | j
    · exact hj rfl
    · simp [wC8, kC8] at hkj
  · intro ti t htt
    simp [wC8] at htt

/-- Claim C7 witness: one kinematic body on layer one above one trigger
area listening on layer one, with a kernel whose boxes always intersect
and whose intersection test always answers true: the callback fires
exactly once during the tick. -/
theorem c7_trigger_once_witness :
    w3C7.kinematics[0]? = some k3C7 ∧ w3C7.triggers[0]? = some t3C7 ∧
    ((kinAabb K1 k3C7).overlaps (trigAabb K1 t3C7) ∧
      K1.intersectionTest k3C7.isometry k3C7.shape t3C7.isometry t3C7.shape = true) ∧
    ((update K1 wC7 1).2).count (Event.triggerFired 0 0) = 1 := by
  have hk : w3C7.kinematics[0]? = some k3C7 := by with_unfolding_all rfl
  have ht : w3C7.triggers[0]? = some t3C7 := by with_unfolding_all rfl
  have hcond : (kinAabb K1 k3C7).overlaps (trigAabb K1 t3C7) ∧
      K1.intersectionTest k3C7.isometry k3C7.shape t3C7.isometry t3C7.shape = true := by
    constructor
    · constructor
      · constructor <;> decide
      · intro i
        constructor <;> with_unfolding_all rfl
    · with_unfolding_all rfl
  have hcount := c7_trigger_once K1 wC7 1 0 0 k3C7 t3C7 hk ht
  rw [if_pos hcond] at hcount
  exact ⟨hk, ht, hcond, hcount⟩

/-- Claim C5 witness: a kinematic body with empty layer and mask in a
world holding another kinematic body, a static body and a trigger area,
run for one tick: no contact of any kind is recorded for it and no
trigger fires for it. -/
theorem c5_mask_gating_witness :
    (masksOf kC5z).1 &&& (masksOf kC5b).2 = 0 ∧
    (masksOf kC5z).2 &&& (masksOf kC5b).1 = 0 ∧
    Event.contactWithKinematic 0 1 ∉ (runTicks K1 wC5 [1]).2 ∧
    Event.contactWithKinematic 1 0 ∉ (runTicks K1 wC5 [1]).2 ∧
    Event.contactWithStatic 0 0 ∉ (runTicks K1 wC5 [1]).2 ∧
    Event.triggerFired 0 0 ∉ (runTicks K1 wC5 [1]).2 := by
  obtain ⟨hkk, hks, htr⟩ := c5_mask_gating K1 wC5 [1]
  have h1 := hkk 0 1 (masksOf kC5z) (masksOf kC5b) rfl rfl (by decide) (by decide)
  have h2 := hks 0 0 (masksOf kC5z) sC5 rfl rfl (by decide) (by decide)
  have h3 := htr 0 0 (masksOf kC5z) tC7.mask rfl rfl (by decide) (by decide)
  exact ⟨by decide, by decide, h1.1, h1.2, h2, h3⟩

end Bonked

